import Mathlib

/-!
Verification development for the Formalizer pipeline
(graph-of-thoughts autoformalization system).

This file is a shallow embedding of the Python sources:
  modules/data_structures.py  (ConceptNode, ConceptualGraph, get_build_order)
  stage1_planner.py           (GoTPlanner.run)
  modules/knowledge_base.py   (save_verified_nodes, load_knowledge_base)
  stage2_synthesizer.py       (GoTSynthesizer.run, _synthesis_worker, helpers)
  stage3_alignment.py         (SemanticAlignmentModule.run)
  main.py                     (process_single_problem record logic)

External effects (LLM calls, the Lean toolchain, the thread pool race and
file I/O) are modelled as oracles/scripts: explicit inputs that supply, per
call site, the value the external collaborator would have returned.  All
container state (dicts, sets, lists) is modelled with association lists and
lists, preserving the source's insertion/lookup semantics.
-/

namespace Formalizer

/-! ## Python string primitives

`str.strip()`, `str.lower()` and `re.sub(r"\s+", " ", s)` as used by the
sources, modelled at character-list level.  `pyIsSpace` is Python's default
whitespace class (also the `\s` class for ASCII input). -/

def pyIsSpace (c : Char) : Bool :=
  c == ' ' || c == '\t' || c == '\n' || c == '\r' || c == '\x0b' || c == '\x0c'

/-- `str.strip()` on a character list: drop leading, then trailing,
whitespace. -/
def pyStripList (l : List Char) : List Char :=
  List.rdropWhile pyIsSpace (l.dropWhile pyIsSpace)

/-- `str.strip()`. -/
def pyStrip (s : String) : String := ⟨pyStripList s.data⟩

/-- `str.lower()` (ASCII behaviour, which is all the sources rely on). -/
def pyLower (s : String) : String := ⟨s.data.map Char.toLower⟩

/-- `name.lower().strip()` — the normalization used by
`ConceptualGraph.find_node_by_name` and the knowledge base. -/
def lowerStrip (s : String) : String := pyStrip (pyLower s)

/-- Scanner for `re.sub(r"\s+", " ", ·)`: the flag records whether the
previous character was whitespace (so a continuing run emits nothing). -/
def collapseGo : Bool → List Char → List Char
  | _, [] => []
  | prevSpace, c :: rest =>
    if pyIsSpace c then
      if prevSpace then collapseGo true rest
      else ' ' :: collapseGo true rest
    else c :: collapseGo false rest

/-- One pass of `re.sub(r"\s+", " ", ·)`: each maximal whitespace run becomes
a single space. -/
def collapseWsAux (l : List Char) : List Char := collapseGo false l

/-- `GoTSynthesizer._normalize_node_name` (identical in stage 3):
`re.sub(r"\s+", " ", str(name)).strip().lower()`. -/
def normalize_node_name (s : String) : String :=
  pyLower (pyStrip ⟨collapseWsAux s.data⟩)

/-! ## Data model (`modules/data_structures.py`)

`ConceptNode.id` is a `uuid4` in the source; we model identities as naturals
handed out by a per-graph counter (`nextId`), which preserves exactly the
property the source uses: ids are distinct.  `grounded_definition` is a
dynamically typed Python attribute that over the program's life holds either
a string or a list of strings, so it is modelled as a sum. -/

inductive NodeStatus where
  | TO_EXPAND
  | GROUNDED
  | TO_SYNTHESIZE
deriving DecidableEq, Repr

/-- The dynamic type of `ConceptNode.grounded_definition`: Python code
compares it both to strings and stores lists in it. -/
inductive GroundedDef where
  | pyStr (s : String)
  | pyList (l : List String)
deriving DecidableEq, Repr

structure ConceptNode where
  id : Nat
  /-- `self.name = name.strip()` — stored stripped. -/
  name : String
  status : NodeStatus
  /-- Dependency edges, as ids of nodes owned by the graph. -/
  dependencies : List Nat
  parent : Option Nat
  grounded_definition : GroundedDef
deriving DecidableEq, Repr

/-- index key of a node: `node.name.lower().strip()`. -/
def nodeKey (n : ConceptNode) : String := lowerStrip n.name

structure ConceptualGraph where
  rootId : Nat
  /-- the `self.nodes` arena (id-keyed dict, insertion order kept). -/
  nodes : List ConceptNode
  /-- `self._nodes_by_name`: normalized name → node id. -/
  nodesByName : List (String × Nat)
  /-- id counter standing in for uuid4 uniqueness. -/
  nextId : Nat
deriving DecidableEq, Repr

/-- Python dict lookup `d.get(k)` on an association list. -/
def assocLookup {α : Type} (m : List (String × α)) (k : String) : Option α :=
  match m with
  | [] => none
  | (k', v) :: rest => if k' == k then some v else assocLookup rest k

/-- Python dict assignment `d[k] = v` on an association list: replaces the
entry for `k` if present, else adds it at the end (insertion order). -/
def assocSet {α : Type} (k : String) (v : α) (m : List (String × α)) :
    List (String × α) :=
  if (assocLookup m k).isSome then
    m.map (fun p => if p.1 == k then (k, v) else p)
  else
    m ++ [(k, v)]

/-- Python `k in d`. -/
def assocHasKey {α : Type} (m : List (String × α)) (k : String) : Bool :=
  (assocLookup m k).isSome

/-- `ConceptualGraph.__init__(root_name)`. -/
def graphInit (root_name : String) : ConceptualGraph :=
  let root : ConceptNode :=
    { id := 0, name := pyStrip root_name, status := .TO_EXPAND,
      dependencies := [], parent := none, grounded_definition := .pyList [] }
  { rootId := 0, nodes := [root],
    nodesByName := [(nodeKey root, 0)], nextId := 1 }

/-- Fetch the node object for an id. -/
def getNode (g : ConceptualGraph) (nid : Nat) : Option ConceptNode :=
  g.nodes.find? (fun n => n.id == nid)

/-- `node.dependencies` for an id ( `[]` if the id is not in the arena,
which cannot happen for graphs the code builds). -/
def getDeps (g : ConceptualGraph) (nid : Nat) : List Nat :=
  match getNode g nid with
  | some n => n.dependencies
  | none => []

/-- `ConceptualGraph.find_node_by_name`: lookup of `name.lower().strip()`
in the name index. -/
def find_node_by_name (g : ConceptualGraph) (name : String) : Option Nat :=
  assocLookup g.nodesByName (lowerStrip name)

/-- Replace the node with id `nid` by `f node` (mutation of a node object
held by the arena). -/
def updateNode (g : ConceptualGraph) (nid : Nat) (f : ConceptNode → ConceptNode) :
    ConceptualGraph :=
  { g with nodes := g.nodes.map (fun n => if n.id == nid then f n else n) }

/-- `ConceptualGraph.add_node(name, parent)`: unconditionally creates a new
node, appends it to `parent.dependencies`, registers it in the arena and
(over)writes the name index entry.  Returns the new graph and the new id. -/
def add_node (g : ConceptualGraph) (name : String) (parentId : Nat) :
    ConceptualGraph × Nat :=
  let newNode : ConceptNode :=
    { id := g.nextId, name := pyStrip name, status := .TO_EXPAND,
      dependencies := [], parent := some parentId, grounded_definition := .pyList [] }
  let g := updateNode g parentId
    (fun p => { p with dependencies := p.dependencies ++ [newNode.id] })
  ({ g with
      nodes := g.nodes ++ [newNode],
      nodesByName := assocSet (nodeKey newNode) newNode.id g.nodesByName,
      nextId := g.nextId + 1 },
   newNode.id)

/-! ## `ConceptualGraph.get_build_order`

Post-order DFS from the root with an identity-keyed visited set.  The Python
recursion is unbounded; the fuel `g.nodes.length + 1` is always sufficient
because a chain of nested calls adds a distinct node id to `visited` at
every level.  `potGo` handles one call of `post_order_traverse`, `potGoList`
the `for dep in node.dependencies` loop. -/

def potGo (g : ConceptualGraph) : Nat → Nat → List Nat × List Nat → List Nat × List Nat
  | 0, _, st => st
  | fuel + 1, nid, st =>
    if nid ∈ st.1 then st
    else
      let st1 := (getDeps g nid).foldl (fun s d => potGo g fuel d s) (nid :: st.1, st.2)
      (st1.1, st1.2 ++ [nid])

/-- `ConceptualGraph.get_build_order()`: ids in bottom-up build order. -/
def get_build_order (g : ConceptualGraph) : List Nat :=
  (potGo g (g.nodes.length + 1) g.rootId ([], [])).2

/-! ## Stage 1: the decomposition planner (`stage1_planner.py`)

`GoTPlanner.run` is driven by three external collaborators (the expansion
LLM, the grounding LLM on two channels, and the local KB, which
`__init__` hardcodes to `{}`).  A `PlanScript` supplies their responses;
the grounding/expansion oracles are indexed by how many queue items have
been processed so far. -/

/-- `GroundingResult` from `modules/llm_modules.py`. -/
structure GroundingResult where
  is_found : Bool
  definitions : List String
deriving Repr

/-- Output post-processing of `LLMModules.run_expansion_module`: the parsed
raw list is mapped through `str(item).strip()` and falsy (empty) entries are
dropped.  A parse failure is the `raw = []` instance. -/
def run_expansion_module (raw : List String) : List String :=
  (raw.map pyStrip).filter (fun s => !(s == ""))

/-- The dual-channel grounding merge in `GoTPlanner.run` (lines 119-130):
collect each channel's definitions when `is_found` and nonempty, into a set.
Python's `list(set)` order is unspecified; we fix one deduplicated
linearization (no caller depends on the order). -/
def combinedDefinitions (resText : GroundingResult)
    (resVision : Option GroundingResult) : List String :=
  let l1 := if resText.is_found && !resText.definitions.isEmpty then
              resText.definitions else []
  let l2 := match resVision with
    | some r => if r.is_found && !r.definitions.isEmpty then r.definitions else []
    | none => []
  (l1 ++ l2).dedup

/-- The external responses consumed by one `GoTPlanner.run` call. -/
structure PlanScript where
  /-- keys of `self.verified_kb` (hardcoded to `{}` in `__init__`). -/
  kbKeys : List String
  /-- whether an `image_path` was supplied. -/
  hasImage : Bool
  /-- parsed raw list for the root's expansion call. -/
  rootExpansionRaw : List String
  /-- text-channel grounding response for the t-th dequeued node. -/
  groundTextAt : Nat → GroundingResult
  /-- vision-channel grounding response for the t-th dequeued node. -/
  groundVisionAt : Nat → GroundingResult
  /-- parsed raw expansion list for the t-th dequeued node. -/
  expandRawAt : Nat → List String

/-- The per-name body of the two child-linking loops in `GoTPlanner.run`
(lines 59-76 for the root, lines 148-169 inside the queue loop; the latter
additionally has the self-loop check, selected by `selfLoopCheck`).
State: (graph, queue, queue_log). -/
def processChildNames (selfLoopCheck : Bool) (parentId : Nat) :
    List String → ConceptualGraph × List Nat × List String →
    ConceptualGraph × List Nat × List String
  | [], st => st
  | name :: rest, (g, queue, queueLog) =>
    if lowerStrip name == "" then
      processChildNames selfLoopCheck parentId rest (g, queue, queueLog)
    else
      match find_node_by_name g (lowerStrip name) with
      | some existingId =>
        if selfLoopCheck && existingId == parentId then
          processChildNames selfLoopCheck parentId rest (g, queue, queueLog)
        else if existingId ∈ getDeps g parentId then
          processChildNames selfLoopCheck parentId rest (g, queue, queueLog)
        else
          processChildNames selfLoopCheck parentId rest
            (updateNode g parentId
              (fun p => { p with dependencies := p.dependencies ++ [existingId] }),
             queue, queueLog)
      | none =>
        if lowerStrip name ∈ queueLog then
          processChildNames selfLoopCheck parentId rest
            ((add_node g name parentId).1, queue, queueLog)
        else
          processChildNames selfLoopCheck parentId rest
            ((add_node g name parentId).1,
             queue ++ [(add_node g name parentId).2], queueLog ++ [lowerStrip name])

structure PlannerState where
  graph : ConceptualGraph
  queue : List Nat
  queueLog : List String
  /-- number of dequeued nodes processed so far (oracle index). -/
  step : Nat

/-- The breadth-first queue loop of `GoTPlanner.run` (step 3).  The Python
loop runs until the queue empties; `fuel` bounds the number of iterations
(every theorem below holds for every fuel value). -/
def plannerLoop (s : PlanScript) : Nat → PlannerState → PlannerState
  | 0, st => st
  | fuel + 1, st =>
    match st.queue with
    | [] => st
    | currentId :: queueRest =>
      match getNode st.graph currentId with
      | none => st
      | some current =>
        if lowerStrip current.name ∈ s.kbKeys then
          -- 3a: local KB hit
          plannerLoop s fuel
            ⟨updateNode st.graph currentId (fun n =>
              { n with status := .GROUNDED,
                       grounded_definition := .pyList ["VerifiedKB"] }),
             queueRest, st.queueLog, st.step + 1⟩
        else
          -- 3b: dual-channel grounding (text always; vision iff an image
          -- was supplied), then merge
          if !(combinedDefinitions (s.groundTextAt st.step)
              (if s.hasImage then some (s.groundVisionAt st.step) else none)).isEmpty then
            plannerLoop s fuel
              ⟨updateNode st.graph currentId (fun n =>
                { n with status := .GROUNDED,
                         grounded_definition := .pyList (combinedDefinitions
                           (s.groundTextAt st.step)
                           (if s.hasImage then some (s.groundVisionAt st.step)
                            else none)) }),
               queueRest, st.queueLog, st.step + 1⟩
          else
            -- 3c: expand
            plannerLoop s fuel
              ⟨(processChildNames true currentId
                  (run_expansion_module (s.expandRawAt st.step))
                  (updateNode st.graph currentId (fun n =>
                    { n with status := .TO_SYNTHESIZE }),
                   queueRest, st.queueLog)).1,
               (processChildNames true currentId
                  (run_expansion_module (s.expandRawAt st.step))
                  (updateNode st.graph currentId (fun n =>
                    { n with status := .TO_SYNTHESIZE }),
                   queueRest, st.queueLog)).2.1,
               (processChildNames true currentId
                  (run_expansion_module (s.expandRawAt st.step))
                  (updateNode st.graph currentId (fun n =>
                    { n with status := .TO_SYNTHESIZE }),
                   queueRest, st.queueLog)).2.2,
               st.step + 1⟩

/-- `GoTPlanner.run(informal_statement)`. -/
def plannerRun (s : PlanScript) (informal_statement : String) (fuel : Nat) :
    ConceptualGraph :=
  let g := graphInit informal_statement
  let queueLog := [lowerStrip (pyStrip informal_statement)]
  let g := updateNode g g.rootId (fun n => { n with status := .TO_SYNTHESIZE })
  let names := run_expansion_module s.rootExpansionRaw
  let st1 := processChildNames false g.rootId names (g, [], queueLog)
  (plannerLoop s fuel ⟨st1.1, st1.2.1, st1.2.2, 0⟩).graph

/-! ## Knowledge base (`modules/knowledge_base.py`)

File I/O and the lock are outside the shallow embedding; `load` is modelled
as a function of the parsed file contents, and `save` as a function of the
run cache, the graph and the mapping the in-save `load_knowledge_base()`
call produced. -/

structure KBEntry where
  code : String
  deps : List String
deriving DecidableEq, Repr

/-- `root_key = graph.root.name.lower().strip()`. -/
def rootKeyOf (g : ConceptualGraph) : String :=
  match getNode g g.rootId with
  | some root => lowerStrip root.name
  | none => ""

/-- One iteration of `save_verified_nodes`' loop over the cache: skip the
root key, skip keys the graph cannot resolve (with a warning), otherwise
store `{code, deps}` with the dependency list recomputed from the graph. -/
def saveStep (g : ConceptualGraph) (root_key : String)
    (kb : List (String × KBEntry)) (p : String × String) :
    List (String × KBEntry) :=
  if p.1 == root_key then kb
  else
    match find_node_by_name g p.1 with
    | none => kb
    | some nid =>
      let dep_keys := (getDeps g nid).map (fun depId =>
        match getNode g depId with
        | some dep => lowerStrip dep.name
        | none => "")
      assocSet p.1 ⟨p.2, dep_keys⟩ kb

/-- `save_verified_nodes(synthesized_cache, graph)` (merge logic; the final
`json.dump` persists the returned mapping verbatim). -/
def save_verified_nodes (synthesized_cache : List (String × String))
    (g : ConceptualGraph) (existing_kb : List (String × KBEntry)) :
    List (String × KBEntry) :=
  synthesized_cache.foldl (saveStep g (rootKeyOf g)) existing_kb

/-- Parsed JSON value of one KB file entry: either a JSON object (with
optional `code`/`deps` fields) or some non-object value. -/
inductive KBFileEntry where
  | dict (code : Option String) (deps : Option (List String)) : KBFileEntry
  | nonDict : KBFileEntry
deriving DecidableEq, Repr

/-- Result of reading and JSON-parsing the KB file. -/
inductive KBFile where
  /-- the file parses but its top level is not a dict. -/
  | notDict : KBFile
  | dict (entries : List (String × KBFileEntry)) : KBFile
deriving DecidableEq, Repr

/-- `load_knowledge_base()` as a function of the parsed file; `none` models
a missing file, an `IOError` or a `json.JSONDecodeError` (all returning
`{}`).  The only per-entry validation is `isinstance(v, dict)`. -/
def load_knowledge_base (file : Option KBFile) : List (String × KBFileEntry) :=
  match file with
  | none => []
  | some .notDict => []
  | some (.dict entries) =>
    entries.filter (fun p => match p.2 with
      | .dict _ _ => true
      | .nonDict => false)

/-! ## Stage 2: the synthesis scheduler (`stage2_synthesizer.py`) -/

/-- `BASE_IMPORTS` (module constant). -/
def BASE_IMPORTS : List String :=
  ["import Mathlib",
   "import PhysLean.Units.Basic",
   "import PhysLean.Units.Dimension",
   "import PhysLean.Units.WithDim.Basic",
   "import PhysLean.Units.WithDim.Mass",
   "import PhysLean.Units.WithDim.Velocity",
   "import PhysLean.Units.WithDim.Energy",
   "import PhysLean.SpaceAndTime.Space.Basic",
   "import PhysLean.SpaceAndTime.Time.Basic",
   "import PhysLean.SpaceAndTime.Space.Derivatives.Basic",
   "import PhysLean.Mathematics.InnerProductSpace.Basic",
   "import PhysLean.ClassicalMechanics.Basic",
   "import PhysLean.ClassicalMechanics.EulerLagrange",
   "import PhysLean.ClassicalMechanics.HarmonicOscillator.Basic",
   "import PhysLean.ClassicalMechanics.RigidBody.Basic",
   "import PhysLean.Electromagnetism.Basic",
   "import PhysLean.Electromagnetism.Electrostatics.Basic",
   "import PhysLean.Electromagnetism.Dynamics.Basic",
   "import PhysLean.Thermodynamics.Basic",
   "import PhysLean.Thermodynamics.Temperature.Basic",
   "import PhysLean.QuantumMechanics.FiniteTarget.Basic",
   "import PhysLean.QuantumMechanics.OneDimension.HarmonicOscillator.Basic",
   "import PhysLean.Relativity.LorentzGroup.Basic",
   "import PhysLean.Relativity.Special.ProperTime",
   "open Real InnerProductSpace",
   "open PhysLean",
   "noncomputable section"]

/-- `"sep".join(parts)`. -/
def joinSep (sep : String) : List String → String
  | [] => ""
  | [x] => x
  | x :: xs => x ++ sep ++ joinSep sep xs

/-- Split a character list at `'\n'` (keeping empty segments); `acc` holds
the current line reversed. -/
def splitLinesGo : List Char → List Char → List (List Char)
  | acc, [] => [acc.reverse]
  | acc, c :: rest =>
    if c = '\n' then acc.reverse :: splitLinesGo [] rest
    else splitLinesGo (c :: acc) rest

/-- `str.splitlines()` for strings whose only line separator is `'\n'`
(the only separator the pipeline produces): like splitting on `'\n'` but
without a trailing empty line, and `[]` on the empty string. -/
def pySplitlines (s : String) : List String :=
  if s.data.isEmpty then []
  else
    let parts := (splitLinesGo [] s.data).map String.mk
    if parts.getLast? == some "" then parts.dropLast else parts

/-- `re.match(r"^\s*import\s+.+", ln)`: optional leading whitespace,
`import`, one whitespace character, at least one further character. -/
def isImportLine (l : List Char) : Bool :=
  let l1 := l.dropWhile pyIsSpace
  if "import".data.isPrefixOf l1 then
    match l1.drop 6 with
    | c :: _ :: _ => pyIsSpace c
    | _ => false
  else false

/-- First-seen-order deduplication (`seen` set + append loop). -/
def dedupFirstAux (seen : List String) : List String → List String
  | [] => []
  | x :: xs =>
    if x ∈ seen then dedupFirstAux seen xs
    else x :: dedupFirstAux (x :: seen) xs

def dedupFirst (l : List String) : List String := dedupFirstAux [] l

/-- Per-piece body of `_build_final_code_string`'s loop: hoist import-like
lines (whitespace-collapsed) into the import list, keep the rest as a code
block (stripped, dropped if empty). -/
def buildFinalStep (acc : List String × List String) (piece : String) :
    List String × List String :=
  if pyStrip piece == "" then acc
  else
    (acc.1 ++ ((pySplitlines piece).filter (fun ln => isImportLine ln.data)).map
       (fun ln => (⟨collapseWsAux (pyStripList ln.data)⟩ : String)),
     if pyStrip (joinSep "\n"
         ((pySplitlines piece).filter (fun ln => !isImportLine ln.data))) == ""
     then acc.2
     else acc.2 ++ [pyStrip (joinSep "\n"
       ((pySplitlines piece).filter (fun ln => !isImportLine ln.data)))])

/-- `GoTSynthesizer._build_final_code_string(final_code_pieces)`. -/
def build_final_code_string (final_code_pieces : List String) : String :=
  joinSep "\n"
      (dedupFirst (final_code_pieces.foldl buildFinalStep (BASE_IMPORTS, [])).1)
    ++ "\n\n" ++
    (if (final_code_pieces.foldl buildFinalStep (BASE_IMPORTS, [])).2.isEmpty
     then ""
     else joinSep "\n\n"
       (final_code_pieces.foldl buildFinalStep (BASE_IMPORTS, [])).2)

/-- Python `pat in s` (substring containment). -/
def containsSubstr (s pat : String) : Bool :=
  s.data.tails.any (fun t => pat.data.isPrefixOf t)

/-- Node name as read by `_normalize_node_name(getattr(d, "name", str(d)))`
for a dependency id (ids always resolve for graphs the code builds). -/
def nodeNameOf (g : ConceptualGraph) (nid : Nat) : String :=
  match getNode g nid with
  | some n => n.name
  | none => ""

/-- The `dfs` of `_collect_transitive_synthesized_code`, restricted to the
control-relevant state `(seen, order, missing)`; the emitted `chunks` only
feed the worker prompt and the compile document, both of which the worker
pool oracle absorbs.  `missing` collects dependencies that are in neither
the run cache, the grounded set, nor `verified_kb`; the seen-guard ensures
each normalized name is classified at most once (so the Python set add is
an append here).  Fuel bounds the recursion depth; each nested call adds a
fresh name to `seen`, so `g.nodes.length + 2` is always sufficient. -/
def collectDfs (g : ConceptualGraph) (cache : List (String × String))
    (grounded : List String) (kb : List (String × KBEntry)) :
    Nat → Nat → List String × List String × List String →
    List String × List String × List String
  | 0, _, st => st
  | fuel + 1, nid, st =>
    (getDeps g nid).foldl (fun st d =>
      let dn := normalize_node_name (nodeNameOf g d)
      if dn ∈ st.1 then st
      else
        let st1 := collectDfs g cache grounded kb fuel d (st.1 ++ [dn], st.2.1, st.2.2)
        if assocHasKey cache dn then (st1.1, st1.2.1 ++ [dn], st1.2.2)
        else if dn ∈ grounded then st1
        else if assocHasKey kb dn then st1
        else (st1.1, st1.2.1, st1.2.2 ++ [dn])) st

/-- Lexicographic `≤` on code points (Python string comparison). -/
def strLeList : List Char → List Char → Bool
  | [], _ => true
  | _ :: _, [] => false
  | a :: as, b :: bs =>
    if a.toNat < b.toNat then true
    else if b.toNat < a.toNat then false
    else strLeList as bs

def pyStrLe (a b : String) : Bool := strLeList a.data b.data

/-- Stable insertion into a sorted list (ascending). -/
def insertSorted (x : String) : List String → List String
  | [] => [x]
  | y :: ys => if pyStrLe x y then x :: y :: ys else y :: insertSorted x ys

/-- Python `sorted(·)` on strings (stable ascending sort). -/
def pySorted (l : List String) : List String := l.foldr insertSorted []

/-- `sorted(missing_not_grounded)` followed by the caller's emptiness test;
the `missing` component of `_collect_transitive_synthesized_code`. -/
def collect_missing (g : ConceptualGraph) (cache : List (String × String))
    (grounded : List String) (kb : List (String × KBEntry)) (nid : Nat) :
    List String :=
  pySorted (collectDfs g cache grounded kb (g.nodes.length + 2) nid ([], [], [])).2.2

/-- `f"-- {'-' * 30}\n-- Node (from KB): {node_key}\n-- {'-' * 30}"`. -/
def kbSeparator (node_key : String) : String :=
  "-- " ++ String.mk (List.replicate 30 '-') ++ "\n-- Node (from KB): " ++
    node_key ++ "\n-- " ++ String.mk (List.replicate 30 '-')

/-- `f"-- {'-' * 30}\n-- Node: {name}\n-- {'-' * 30}"`. -/
def nodeSeparator (name : String) : String :=
  "-- " ++ String.mk (List.replicate 30 '-') ++ "\n-- Node: " ++
    name ++ "\n-- " ++ String.mk (List.replicate 30 '-')

/-- `GoTSynthesizer._recursively_paste_from_kb`.  State:
`(final_code_pieces, synthesized_cache, grounded_set, writes)`, where
`writes` is the ghost trace of cache keys assigned (in order).  Fuel bounds
the recursion (the Python recursion can in fact diverge on a cyclic KB;
every theorem below holds for every fuel value). -/
def pasteFromKb (kb : List (String × KBEntry)) :
    Nat → String →
    List String × List (String × String) × List String × List String →
    List String × List (String × String) × List String × List String
  | 0, _, st => st
  | fuel + 1, node_key, (pieces, cache, grounded, writes) =>
    if assocHasKey cache node_key || node_key ∈ grounded then
      (pieces, cache, grounded, writes)
    else
      match assocLookup kb node_key with
      | none => (pieces, cache, grounded ++ [node_key], writes)
      | some entry =>
        let st1 := entry.deps.foldl (fun s d => pasteFromKb kb fuel d s)
          (pieces, cache, grounded, writes)
        let formatted := kbSeparator node_key ++ "\n" ++ entry.code
        (st1.1 ++ [formatted],
         assocSet (normalize_node_name node_key) entry.code st1.2.1,
         st1.2.2.1,
         st1.2.2.2 ++ [normalize_node_name node_key])

/-- The external inputs of one `GoTSynthesizer.run` call: the per-node
worker-pool outcome (first completed non-`None` result, as selected by the
`as_completed` loop, for the k-th launched pool) and `self.verified_kb`
(hardcoded to `{}` in `__init__`). -/
structure RunScript where
  poolAt : Nat → Option String
  verified_kb : List (String × KBEntry)

/-- State threaded through `GoTSynthesizer.run`'s build-order loop, plus
ghost trace fields (`launches`, `skipped`, `writes`, `halted`). -/
structure RunState where
  cache : List (String × String)
  grounded : List String
  pieces : List String
  launches : Nat
  skipped : List Nat
  writes : List String
  halted : Bool
deriving Repr, DecidableEq

/-- One iteration of `GoTSynthesizer.run`'s `for node in build_order` loop.
After the Python loop exits early (`return` on synthesis failure) no further
node is processed; `halted` records that, and the step is the identity once
it is set. -/
def runStep (s : RunScript) (g : ConceptualGraph) (st : RunState) (nid : Nat) :
    RunState :=
  if st.halted then st
  else
    match getNode g nid with
    | none => st
    | some node =>
      match node.status with
      | .TO_EXPAND => st
      | .GROUNDED =>
        if node.grounded_definition == .pyStr "VerifiedKB" then
          { st with
              pieces := (pasteFromKb s.verified_kb (s.verified_kb.length + 2)
                (lowerStrip node.name)
                (st.pieces, st.cache, st.grounded, st.writes)).1,
              cache := (pasteFromKb s.verified_kb (s.verified_kb.length + 2)
                (lowerStrip node.name)
                (st.pieces, st.cache, st.grounded, st.writes)).2.1,
              grounded := (pasteFromKb s.verified_kb (s.verified_kb.length + 2)
                (lowerStrip node.name)
                (st.pieces, st.cache, st.grounded, st.writes)).2.2.1,
              writes := (pasteFromKb s.verified_kb (s.verified_kb.length + 2)
                (lowerStrip node.name)
                (st.pieces, st.cache, st.grounded, st.writes)).2.2.2 }
        else
          { st with grounded :=
              st.grounded ++ [normalize_node_name (pyStrip node.name)] }
      | .TO_SYNTHESIZE =>
        if !(collect_missing g st.cache st.grounded s.verified_kb nid).isEmpty then
          { st with skipped := st.skipped ++ [nid] }
        else
          match s.poolAt st.launches with
          | some success_code =>
            { st with
                pieces := st.pieces ++
                  [nodeSeparator (pyStrip node.name) ++ "\n" ++ success_code],
                cache := assocSet (normalize_node_name (pyStrip node.name))
                  success_code st.cache,
                writes := st.writes ++ [normalize_node_name (pyStrip node.name)],
                launches := st.launches + 1 }
          | none =>
            { st with
                pieces := st.pieces ++
                  ["-- FATAL: " ++ pyStrip node.name ++ " synthesis failed."],
                launches := st.launches + 1,
                halted := true }

/-- `GoTSynthesizer.run(graph)`: returns the final document and the final
loop state (whose `cache` is the returned `synthesized_cache`). -/
def synthRun (s : RunScript) (g : ConceptualGraph) : String × RunState :=
  let build_order := get_build_order g
  let st0 : RunState :=
    { cache := [], grounded := [], pieces := [joinSep "\n" BASE_IMPORTS],
      launches := 0, skipped := [], writes := [], halted := false }
  let stF := build_order.foldl (runStep s g) st0
  (build_final_code_string stF.pieces, stF)

/-! ### `GoTSynthesizer._synthesis_worker` -/

/-- `json.loads` outcome of the semantic-check response (the response is a
string; stage-2/3 parse it and read `consistency_level` with default
`"level_3"`). -/
inductive SemJudgment where
  | parsed (level? : Option String)
  | malformed
deriving DecidableEq, Repr

/-- External responses consumed by one worker: cancellation-flag reads at
each attempt boundary, generated code per attempt (synthesis on attempt 0,
repair later), the one semantic pre-check judgment, and the compiler
verdict per attempt. -/
structure WorkerScript where
  stopAt : Nat → Bool
  genAt : Nat → String
  semantic : SemJudgment
  compileOkAt : Nat → Bool

/-- Observables of one worker run: its return value plus ghost counts of
compiler invocations and generation calls. -/
structure WorkerResult where
  result : Option String
  compileCalls : Nat
  genCalls : Nat
deriving DecidableEq, Repr

/-- `re.sub(r"^(import .*)$", "", code, flags=re.MULTILINE).strip()`. -/
def code_without_imports (code : String) : String :=
  pyStrip (joinSep "\n" ((pySplitlines code).map
    (fun ln => if "import ".data.isPrefixOf ln.data then "" else ln)))

/-- The `for attempt in range(attempts)` loop of `_synthesis_worker`.
`t` is the attempt index, `remaining` the attempts left. -/
def workerGo (w : WorkerScript) (is_root_node : Bool) (original_question : String) :
    Nat → Nat → Nat → Nat → WorkerResult
  | 0, _, compiles, gens => ⟨none, compiles, gens⟩
  | remaining + 1, t, compiles, gens =>
    if w.stopAt t then ⟨none, compiles, gens⟩
    else
      let current_code := w.genAt t
      let gens := gens + 1
      if pyStrip current_code == "" then
        workerGo w is_root_node original_question remaining (t + 1) compiles gens
      else
        let gateAborts :=
          if t == 0 && !(original_question == "") && is_root_node then
            match w.semantic with
            | .parsed lvl? => lvl?.getD "level_3" == "level_3"
            | .malformed => false
          else false
        if gateAborts then ⟨none, compiles, gens⟩
        else
          let compiles := compiles + 1
          if w.compileOkAt t then
            ⟨some (code_without_imports current_code), compiles, gens⟩
          else
            workerGo w is_root_node original_question remaining (t + 1) compiles gens

/-- `GoTSynthesizer._synthesis_worker` (per-worker control flow). -/
def synthesis_worker (w : WorkerScript) (attempts : Nat) (is_root_node : Bool)
    (original_question : String) : WorkerResult :=
  workerGo w is_root_node original_question attempts 0 0 0

/-! ## Stage 3 (`stage3_alignment.py`) and the per-problem record
(`main.py`) -/

/-- The report dict as far as the callers read it
(`report.get("consistency_level", "level_3")`). -/
structure AlignReport where
  level? : Option String
deriving DecidableEq, Repr

/-- Outcome of `SemanticAlignmentModule.run`: the returned pair plus, as an
observable, the knowledge-base state written by `save_verified_nodes` when
(and only when) that call happened. -/
structure AlignOutcome where
  is_consistent : Bool
  report : AlignReport
  savedKB : Option (List (String × KBEntry))
deriving DecidableEq, Repr

/-- The keys of `back_translated_segments` after stage 3's back-translation
loop: build-order nodes whose normalized name is in the run cache. -/
def alignSegments (g : ConceptualGraph)
    (synthesized_cache : List (String × String)) : List String :=
  (get_build_order g).filterMap (fun nid =>
    match getNode g nid with
    | some n =>
      if assocHasKey synthesized_cache (normalize_node_name n.name) then
        some (normalize_node_name n.name)
      else none
    | none => none)

/-- `SemanticAlignmentModule.run(original_statement, synthesized_cache,
graph)`.  The back-translation and merge calls feed only the judgment
prompt; `judgment` supplies the parsed `json.loads` outcome of the
consistency check's response. -/
def alignment_run (judgment : SemJudgment) (g : ConceptualGraph)
    (synthesized_cache : List (String × String))
    (existing_kb : List (String × KBEntry)) : AlignOutcome :=
  let segments := alignSegments g synthesized_cache
  if segments.isEmpty then
    { is_consistent := false, report := { level? := some "level_3" },
      savedKB := none }
  else
    match judgment with
    | .malformed =>
      { is_consistent := false, report := { level? := some "level_3" },
        savedKB := none }
    | .parsed lvl? =>
      let consistency_level := lvl?.getD "level_3"
      let is_consistent :=
        consistency_level == "level_1" || consistency_level == "level_2"
      if is_consistent then
        { is_consistent := true, report := { level? := lvl? },
          savedKB := some (save_verified_nodes synthesized_cache g existing_kb) }
      else
        { is_consistent := false, report := { level? := lvl? }, savedKB := none }

/-- The per-problem record assembled by `process_single_problem`
(main.py lines 82-141), as a function of the stage-2 document and the
stage-3 outcome (the latter is only consulted when stage 2 did not fail). -/
structure ResultSummary where
  status : String
  compilation_passed : Bool
  semantic_passed : Bool
  error : Option String
  consistency_level : String
  generated_code : String
deriving DecidableEq, Repr

def process_record (final_lean_code : String) (align : AlignOutcome) :
    ResultSummary :=
  if containsSubstr final_lean_code "-- FATAL:" then
    { status := "failed", compilation_passed := false, semantic_passed := false,
      error := some "Stage 2 Synthesis Failed", consistency_level := "N/A",
      generated_code := final_lean_code }
  else
    { status := if align.is_consistent then "success" else "inconsistent",
      compilation_passed := true, semantic_passed := align.is_consistent,
      error := none, consistency_level := align.report.level?.getD "level_3",
      generated_code := final_lean_code }

/-! ## Specification-side predicates -/

/-- The node ids the graph owns. -/
def idsOf (g : ConceptualGraph) : List Nat := g.nodes.map (·.id)

/-- Every dependency edge points at a node the graph owns (automatic for
graphs built by the code, where `dependencies` holds object references). -/
def DepsClosed (g : ConceptualGraph) : Prop :=
  ∀ n ∈ g.nodes, ∀ d ∈ n.dependencies, d ∈ idsOf g

/-- `rank` decreases along dependency edges — the (finite-graph) witness
form of acyclicity of the dependency relation. -/
def DepRanked (g : ConceptualGraph) (rank : Nat → Nat) : Prop :=
  ∀ a ∈ idsOf g, ∀ b ∈ getDeps g a, rank b < rank a

/-- Index of the first occurrence of `a` (length of `l` if absent). -/
def idxOf (a : Nat) : List Nat → Nat
  | [] => 0
  | x :: xs => if x = a then 0 else idxOf a xs + 1

/-- Well-formedness invariant of a `ConceptualGraph`, established at
construction and maintained by every planner operation: node identities are
distinct and below the id counter, and the name index maps every node's
normalized name to that node's id. -/
structure GraphInv (g : ConceptualGraph) : Prop where
  idsNodup : (idsOf g).Nodup
  idsBound : ∀ n ∈ g.nodes, n.id < g.nextId
  indexComplete : ∀ n ∈ g.nodes, assocLookup g.nodesByName (nodeKey n) = some n.id

/-- Conclusion bundle of the ranked DFS invariant (`potGo_rank`): facts
about one completed `post_order_traverse` call started at `nid` in state
`(vis, ord)`. -/
structure PotOut (g : ConceptualGraph) (nid : Nat) (vis ord : List Nat)
    (out : List Nat × List Nat) : Prop where
  visSuffix : vis <:+ out.1
  ordExtends : ∃ new, out.2 = ord ++ new
  ordNodup : out.2.Nodup
  ordInv : ∀ a ∈ out.2, ∀ d ∈ getDeps g a,
    d ∈ out.2 ∧ idxOf d out.2 < idxOf a out.2
  ordSubVis : ∀ a ∈ out.2, a ∈ out.1
  selfMem : nid ∈ out.2
  grayFrozen : ∀ v ∈ vis, v ∉ ord → v ∉ out.2
  visIds : ∀ v ∈ out.1, v ∈ idsOf g
  visNodup : out.1.Nodup
  newBlack : ∀ v ∈ out.1, v ∉ vis → v ∈ out.2

/-! ## Concrete scenarios (used by counterexamples and witnesses)

`cyclicScript`: the root statement `"r"` decomposes into one concept `"x"`;
`"x"` is not grounded and its expansion names `"r"` again, so the planner's
dedup links an edge from `"x"` back to the root — the graph is cyclic. -/

def cyclicScript : PlanScript :=
  { kbKeys := [], hasImage := false,
    rootExpansionRaw := ["x"],
    groundTextAt := fun _ => ⟨false, []⟩,
    groundVisionAt := fun _ => ⟨false, []⟩,
    expandRawAt := fun _ => ["r"] }

def cyclicGraph : ConceptualGraph := plannerRun cyclicScript "r" 10

/-- `simpleScript`: `"r"` decomposes into `"x"`; `"x"` is not grounded and
expands to nothing.  Build order: `x` then the root. -/
def simpleScript : PlanScript :=
  { kbKeys := [], hasImage := false,
    rootExpansionRaw := ["x"],
    groundTextAt := fun _ => ⟨false, []⟩,
    groundVisionAt := fun _ => ⟨false, []⟩,
    expandRawAt := fun _ => [] }

def simpleGraph : ConceptualGraph := plannerRun simpleScript "r" 10

/-- `collideScript`: the root's two sub-concepts are named `"x y"` and
`"x\ny"` — distinct under the graph's `lower().strip()` normalization, but
identical under the synthesizer's whitespace-collapsing
`_normalize_node_name`. -/
def collideScript : PlanScript :=
  { kbKeys := [], hasImage := false,
    rootExpansionRaw := ["x y", "x\ny"],
    groundTextAt := fun _ => ⟨false, []⟩,
    groundVisionAt := fun _ => ⟨false, []⟩,
    expandRawAt := fun _ => [] }

def collideGraph : ConceptualGraph := plannerRun collideScript "r" 10

/-- A decomposition whose root statement contains an internal newline, so
that the synthesizer cache key (`normalize_node_name`, which collapses
whitespace) differs from the root key `lower().strip()` the knowledge base
computes. -/
def wsRootGraph : ConceptualGraph := plannerRun simpleScript "a\nB" 10

/-- All worker pools succeed, with distinguishable artifacts. -/
def okPools : RunScript :=
  { poolAt := fun k => some (match k with
      | 0 => "theorem c0 : True := trivial"
      | 1 => "theorem c1 : True := trivial"
      | _ => "theorem cN : True := trivial"),
    verified_kb := [] }

/-- No worker pool ever produces a compiling artifact. -/
def failPools : RunScript :=
  { poolAt := fun _ => none, verified_kb := [] }

end Formalizer

/-! # Theorems -/

namespace Formalizer

/-! ## Character- and string-level lemmas -/

theorem charToNat_ofNat_valid {n : Nat} (h : n.isValidChar) :
    (Char.ofNat n).toNat = n := by
  unfold Char.ofNat
  rw [dif_pos h]
  rfl

theorem char_toNat_inj {a b : Char} (h : a.toNat = b.toNat) : a = b := by
  have ha := Char.ofNat_toNat a
  rw [h, Char.ofNat_toNat] at ha
  exact ha.symm

theorem char_beq_eq_toNat_beq (a b : Char) : (a == b) = (a.toNat == b.toNat) := by
  by_cases h : a = b
  · subst h; simp
  · have h2 : a.toNat ≠ b.toNat := fun he => h (char_toNat_inj he)
    simp [h, h2]

theorem pyIsSpace_iff (c : Char) : pyIsSpace c = true ↔
    (c.toNat = 32 ∨ c.toNat = 9 ∨ c.toNat = 10 ∨ c.toNat = 13 ∨
     c.toNat = 11 ∨ c.toNat = 12) := by
  unfold pyIsSpace
  simp only [Bool.or_eq_true, char_beq_eq_toNat_beq, beq_iff_eq]
  rw [show ' '.toNat = 32 from rfl, show '\t'.toNat = 9 from rfl,
      show '\n'.toNat = 10 from rfl, show '\r'.toNat = 13 from rfl,
      show '\x0b'.toNat = 11 from rfl, show '\x0c'.toNat = 12 from rfl]
  tauto

theorem pyIsSpace_toLower (c : Char) : pyIsSpace (Char.toLower c) = pyIsSpace c := by
  simp only [Char.toLower]
  split
  · rename_i h
    have hval : (Char.ofNat (c.toNat + 32)).toNat = c.toNat + 32 :=
      charToNat_ofNat_valid (Or.inl (by omega))
    have h1 : pyIsSpace (Char.ofNat (c.toNat + 32)) = false := by
      by_contra hx
      have hx' : pyIsSpace (Char.ofNat (c.toNat + 32)) = true := by
        revert hx; cases pyIsSpace (Char.ofNat (c.toNat + 32)) <;> simp
      have := (pyIsSpace_iff _).mp hx'
      omega
    have h2 : pyIsSpace c = false := by
      by_contra hx
      have hx' : pyIsSpace c = true := by
        revert hx; cases pyIsSpace c <;> simp
      have := (pyIsSpace_iff c).mp hx'
      omega
    rw [h1, h2]
  · rfl

theorem toLower_toLower (c : Char) : (c.toLower).toLower = c.toLower := by
  by_cases h : c.toNat ≥ 65 ∧ c.toNat ≤ 90
  · have h1 : c.toLower = Char.ofNat (c.toNat + 32) := by
      simp only [Char.toLower]
      rw [if_pos h]
    have hval : (Char.ofNat (c.toNat + 32)).toNat = c.toNat + 32 :=
      charToNat_ofNat_valid (Or.inl (by omega))
    rw [h1]
    simp only [Char.toLower]
    rw [if_neg]
    omega
  · have h1 : c.toLower = c := by
      simp only [Char.toLower]
      rw [if_neg h]
    rw [h1, h1]

theorem dropWhile_rdropWhile_dropWhile (p : Char → Bool) (l : List Char) :
    (List.rdropWhile p (l.dropWhile p)).dropWhile p
      = List.rdropWhile p (l.dropWhile p) := by
  set a := l.dropWhile p with ha
  rw [List.dropWhile_eq_self_iff]
  intro hl
  obtain ⟨t, ht⟩ := List.rdropWhile_prefix p a
  have ha' : a.dropWhile p = a := by
    rw [ha, List.dropWhile_idempotent]
  have hhead := (List.dropWhile_eq_self_iff).mp ha'
  have hlen : 0 < a.length := by
    have := congrArg List.length ht
    simp only [List.length_append] at this
    omega
  have hx : 0 < (List.rdropWhile p a ++ t).length := by
    simp only [List.length_append]; omega
  have h2 := @List.get_append _ (List.rdropWhile p a) t 0 hl
  have h1 := List.get_of_eq ht (⟨0, hx⟩ : Fin _)
  rw [← h2, h1]
  exact hhead _

theorem pyStripList_idem (l : List Char) :
    pyStripList (pyStripList l) = pyStripList l := by
  unfold pyStripList
  rw [dropWhile_rdropWhile_dropWhile, List.rdropWhile_idempotent]

theorem pyStrip_idem (s : String) : pyStrip (pyStrip s) = pyStrip s := by
  unfold pyStrip
  exact congrArg String.mk (pyStripList_idem s.data)

theorem dropWhile_map_toLower (l : List Char) :
    (l.map Char.toLower).dropWhile pyIsSpace
      = (l.dropWhile pyIsSpace).map Char.toLower := by
  induction l with
  | nil => simp
  | cons c rest ih =>
    simp only [List.map_cons, List.dropWhile_cons, pyIsSpace_toLower]
    by_cases h : pyIsSpace c
    · simp [h, ih]
    · simp [h]

theorem rdropWhile_map_toLower (l : List Char) :
    List.rdropWhile pyIsSpace (l.map Char.toLower)
      = (List.rdropWhile pyIsSpace l).map Char.toLower := by
  unfold List.rdropWhile
  rw [← List.map_reverse, dropWhile_map_toLower, List.map_reverse]

theorem pyStripList_map_toLower (l : List Char) :
    pyStripList (l.map Char.toLower) = (pyStripList l).map Char.toLower := by
  unfold pyStripList
  rw [dropWhile_map_toLower, rdropWhile_map_toLower]

theorem pyStrip_pyLower_comm (s : String) :
    pyStrip (pyLower s) = pyLower (pyStrip s) := by
  unfold pyStrip pyLower
  exact congrArg String.mk (pyStripList_map_toLower s.data)

theorem pyLower_idem (s : String) : pyLower (pyLower s) = pyLower s := by
  unfold pyLower
  refine congrArg String.mk ?_
  rw [List.map_map]
  exact List.map_congr_left (fun c _ => toLower_toLower c)

theorem lowerStrip_idem (s : String) :
    lowerStrip (lowerStrip s) = lowerStrip s := by
  unfold lowerStrip
  rw [← pyStrip_pyLower_comm (pyLower s), pyLower_idem, pyStrip_idem]

theorem lowerStrip_pyStrip (s : String) :
    lowerStrip (pyStrip s) = lowerStrip s := by
  unfold lowerStrip
  rw [pyStrip_pyLower_comm, pyStrip_idem, ← pyStrip_pyLower_comm]

/-! ## Association-list lemmas -/

theorem assocLookup_cons {α : Type} (k' : String) (v : α)
    (rest : List (String × α)) (k : String) :
    assocLookup ((k', v) :: rest) k
      = if k' == k then some v else assocLookup rest k := rfl

theorem assocLookup_append_of_none {α : Type} {l₁ : List (String × α)}
    (l₂ : List (String × α)) {k : String} (h : assocLookup l₁ k = none) :
    assocLookup (l₁ ++ l₂) k = assocLookup l₂ k := by
  induction l₁ with
  | nil => simp
  | cons p rest ih =>
    obtain ⟨k', v⟩ := p
    rw [List.cons_append, assocLookup_cons]
    rw [assocLookup_cons] at h
    by_cases hk : (k' == k) = true
    · rw [if_pos hk] at h
      exact absurd h (by simp)
    · rw [if_neg hk] at h ⊢
      exact ih h

theorem assocLookup_append_of_some {α : Type} {l₁ : List (String × α)}
    (l₂ : List (String × α)) {k : String} {v : α}
    (h : assocLookup l₁ k = some v) :
    assocLookup (l₁ ++ l₂) k = some v := by
  induction l₁ with
  | nil => simp [assocLookup] at h
  | cons p rest ih =>
    obtain ⟨k', v'⟩ := p
    rw [List.cons_append, assocLookup_cons]
    rw [assocLookup_cons] at h
    by_cases hk : (k' == k) = true
    · rw [if_pos hk] at h ⊢
      exact h
    · rw [if_neg hk] at h ⊢
      exact ih h

theorem assocSet_of_none {α : Type} {m : List (String × α)} {k : String}
    (v : α) (h : assocLookup m k = none) :
    assocSet k v m = m ++ [(k, v)] := by
  unfold assocSet
  rw [h]
  simp

theorem assocLookup_replace_self {α : Type} (m : List (String × α))
    (k : String) (v : α) (h : (assocLookup m k).isSome) :
    assocLookup (m.map (fun p => if p.1 == k then (k, v) else p)) k = some v := by
  induction m with
  | nil => simp [assocLookup] at h
  | cons p rest ih =>
    obtain ⟨k', v'⟩ := p
    rw [assocLookup_cons] at h
    by_cases hk : (k' == k) = true
    · simp only [List.map_cons, hk, if_true]
      rw [assocLookup_cons, if_pos (by simp)]
    · rw [if_neg hk] at h
      simp only [List.map_cons, hk, Bool.false_eq_true, if_false]
      rw [assocLookup_cons, if_neg hk]
      exact ih h

theorem assocLookup_replace_ne {α : Type} (m : List (String × α))
    (k : String) (v : α) {k' : String} (hne : k' ≠ k) :
    assocLookup (m.map (fun p => if p.1 == k then (k, v) else p)) k'
      = assocLookup m k' := by
  induction m with
  | nil => simp
  | cons p rest ih =>
    obtain ⟨k2, v2⟩ := p
    by_cases hk : (k2 == k) = true
    · have hk2 : k2 = k := by simpa using hk
      subst hk2
      simp only [List.map_cons, hk, if_true]
      rw [assocLookup_cons, assocLookup_cons]
      have hne' : ¬(k2 == k') = true := by
        simp only [beq_iff_eq]
        intro he
        exact hne he.symm
      rw [if_neg hne', if_neg hne']
      exact ih
    · simp only [List.map_cons, hk, Bool.false_eq_true, if_false]
      rw [assocLookup_cons, assocLookup_cons]
      by_cases hk' : (k2 == k') = true
      · rw [if_pos hk', if_pos hk']
      · rw [if_neg hk', if_neg hk']
        exact ih

theorem assocLookup_assocSet_self {α : Type} (m : List (String × α))
    (k : String) (v : α) :
    assocLookup (assocSet k v m) k = some v := by
  unfold assocSet
  by_cases h : (assocLookup m k).isSome
  · rw [if_pos h]
    exact assocLookup_replace_self m k v h
  · rw [if_neg h]
    have hn : assocLookup m k = none := by
      revert h
      cases assocLookup m k <;> simp
    rw [assocLookup_append_of_none _ hn, assocLookup_cons, if_pos (by simp)]

theorem assocLookup_assocSet_ne {α : Type} (m : List (String × α))
    {k k' : String} (v : α) (h : k' ≠ k) :
    assocLookup (assocSet k v m) k' = assocLookup m k' := by
  unfold assocSet
  by_cases hs : (assocLookup m k).isSome
  · rw [if_pos hs]
    exact assocLookup_replace_ne m k v h
  · rw [if_neg hs]
    cases hv : assocLookup m k' with
    | some w => rw [assocLookup_append_of_some _ hv]
    | none =>
      rw [assocLookup_append_of_none _ hv, assocLookup_cons]
      have hne' : ¬(k == k') = true := by
        simp only [beq_iff_eq]
        intro he
        exact h he.symm
      rw [if_neg hne']
      rfl

/-! ## Claim C2 — `add_node` and dedup-by-name -/

/-- C2 counterexample: with a node named `"x"` already in the graph, a
second `add_node("x", root)` call does *not* return the existing node: it
creates a third node, returns the fresh id, and replaces the name-index
entry for `"x"` with the new id. -/
theorem add_node_existing_name_counterexample :
    (add_node (add_node (graphInit "root") "x" 0).1 "x" 0).1.nodes.length = 3 ∧
    (add_node (add_node (graphInit "root") "x" 0).1 "x" 0).2 ≠
      (add_node (graphInit "root") "x" 0).2 ∧
    find_node_by_name (add_node (graphInit "root") "x" 0).1 "x" =
      some (add_node (graphInit "root") "x" 0).2 ∧
    find_node_by_name (add_node (add_node (graphInit "root") "x" 0).1 "x" 0).1 "x" =
      some (add_node (add_node (graphInit "root") "x" 0).1 "x" 0).2 := by
  refine ⟨by decide, by decide, by decide, by decide⟩

/-- C2 (amended): `add_node` unconditionally creates a fresh node (even
when the normalized name already keys a node), appends an edge from the
parent to the fresh node, and (over)writes the name-index entry; the
dedup-by-name behaviour the spec describes lives in `GoTPlanner.run`, which
calls `find_node_by_name` first and only links an edge on a hit. -/
theorem add_node_always_creates (g : ConceptualGraph) (name : String)
    (parentId : Nat) (hfresh : ∀ n ∈ g.nodes, n.id < g.nextId) :
    (add_node g name parentId).1.nodes.length = g.nodes.length + 1 ∧
    (∃ newNode, newNode ∈ (add_node g name parentId).1.nodes ∧
      newNode.id = (add_node g name parentId).2 ∧
      newNode.name = pyStrip name ∧ newNode.id ∉ idsOf g ∧
      newNode.status = .TO_EXPAND ∧ newNode.dependencies = []) ∧
    assocLookup (add_node g name parentId).1.nodesByName
      (lowerStrip (pyStrip name)) = some (add_node g name parentId).2 ∧
    (∀ p ∈ g.nodes, p.id = parentId →
      ∃ p', p' ∈ (add_node g name parentId).1.nodes ∧ p'.id = parentId ∧
        p'.dependencies = p.dependencies ++ [(add_node g name parentId).2]) := by
  refine ⟨?_, ?_, ?_, ?_⟩
  · simp [add_node, updateNode]
  · refine ⟨{ id := g.nextId, name := pyStrip name, status := NodeStatus.TO_EXPAND, dependencies := [], parent := some parentId, grounded_definition := GroundedDef.pyList [] }, ?_, rfl, rfl, ?_, rfl, rfl⟩
    · exact List.mem_append_right _ (List.mem_singleton_self _)
    · intro hmem
      simp only [idsOf, List.mem_map] at hmem
      obtain ⟨n, hn, hid⟩ := hmem
      have h1 := hfresh n hn
      have h2 : n.id = g.nextId := hid
      omega
  · exact assocLookup_assocSet_self _ _ _
  · intro p hp hpid
    refine ⟨({ p with dependencies :=
        p.dependencies ++ [(add_node g name parentId).2] } : ConceptNode),
      ?_, hpid, rfl⟩
    simp only [add_node, updateNode, List.mem_append]
    left
    rw [List.mem_map]
    refine ⟨p, hp, ?_⟩
    rw [if_pos (by simp [hpid])]

/-- C2 witness for `add_node_always_creates` at a concrete graph. -/
theorem add_node_always_creates_witness :
    (∀ n ∈ (graphInit "root").nodes, n.id < (graphInit "root").nextId) ∧
    ((add_node (graphInit "root") "x" 0).1.nodes.length =
      (graphInit "root").nodes.length + 1 ∧
    (∃ newNode, newNode ∈ (add_node (graphInit "root") "x" 0).1.nodes ∧
      newNode.id = (add_node (graphInit "root") "x" 0).2 ∧
      newNode.name = pyStrip "x" ∧ newNode.id ∉ idsOf (graphInit "root") ∧
      newNode.status = .TO_EXPAND ∧ newNode.dependencies = []) ∧
    assocLookup (add_node (graphInit "root") "x" 0).1.nodesByName
      (lowerStrip (pyStrip "x")) = some (add_node (graphInit "root") "x" 0).2 ∧
    (∀ p ∈ (graphInit "root").nodes, p.id = 0 →
      ∃ p', p' ∈ (add_node (graphInit "root") "x" 0).1.nodes ∧ p'.id = 0 ∧
        p'.dependencies = p.dependencies ++ [(add_node (graphInit "root") "x" 0).2])) :=
  ⟨by decide, add_node_always_creates (graphInit "root") "x" 0 (by decide)⟩

/-! ## Claim C9 — knowledge-base load validation -/

/-- C9 counterexample: an entry whose dependency list names `"zzz"` — a key
present nowhere in the knowledge base (and never checked against any
reference) — is returned by `load_knowledge_base` unchanged, not skipped:
the load performs no dependency-resolvability validation at all. -/
theorem load_keeps_unresolvable_entry :
    load_knowledge_base
        (some (.dict [("a", .dict (some "thm") (some ["zzz"]))])) =
      [("a", .dict (some "thm") (some ["zzz"]))] ∧
    assocLookup
      (load_knowledge_base
        (some (.dict [("a", .dict (some "thm") (some ["zzz"]))]))) "zzz" = none := by
  refine ⟨by decide, by decide⟩

/-- C9 (amended): `load_knowledge_base` never fails (malformed files load
as the empty mapping) and its only per-entry validation is the shape check
`isinstance(v, dict)`: an entry is kept iff its value is a dict, entirely
independent of its dependency list. -/
theorem load_knowledge_base_shape_filter_only :
    (∀ (entries : List (String × KBFileEntry)) (p : String × KBFileEntry),
      p ∈ load_knowledge_base (some (.dict entries)) ↔
        (p ∈ entries ∧ ∃ c d, p.2 = KBFileEntry.dict c d)) ∧
    load_knowledge_base none = [] ∧
    load_knowledge_base (some .notDict) = [] := by
  refine ⟨?_, rfl, rfl⟩
  intro entries p
  unfold load_knowledge_base
  rw [List.mem_filter]
  constructor
  · rintro ⟨hmem, hcond⟩
    refine ⟨hmem, ?_⟩
    cases h2 : p.2 with
    | dict c d => exact ⟨c, d, rfl⟩
    | nonDict => rw [h2] at hcond; exact absurd hcond (by simp)
  · rintro ⟨hmem, c, d, h2⟩
    exact ⟨hmem, by rw [h2]⟩

/-- C9 witness for `load_knowledge_base_shape_filter_only`'s membership
characterization at a concrete file state. -/
theorem load_knowledge_base_shape_filter_only_witness :
    ("a", KBFileEntry.dict (some "thm") (some ["x"])) ∈
      load_knowledge_base
        (some (.dict [("a", .dict (some "thm") (some ["x"])), ("b", .nonDict)])) :=
  (load_knowledge_base_shape_filter_only.1 _ _).mpr
    ⟨by decide, some "thm", some ["x"], rfl⟩

/-! ## Claim C6 — root-node semantic fail-fast -/

/-- C6: a worker synthesizing the root whose first-attempt candidate is
judged at the most severe inconsistency level (`level_3`, also the default
for a missing field) by the semantic pre-check returns immediately: zero
compiler invocations, no further attempts (exactly one generation call),
and no result — the entire attempt budget is abandoned. -/
theorem worker_semantic_fail_fast (w : WorkerScript) (attempts : Nat)
    (original_question : String) (lvl? : Option String)
    (h1 : 1 ≤ attempts)
    (h2 : w.stopAt 0 = false)
    (h3 : ¬ pyStrip (w.genAt 0) = "")
    (h4 : w.semantic = .parsed lvl?)
    (h5 : lvl?.getD "level_3" = "level_3")
    (h6 : ¬ original_question = "") :
    synthesis_worker w attempts true original_question =
      ⟨none, 0, 1⟩ := by
  obtain ⟨a, rfl⟩ : ∃ a, attempts = a + 1 := ⟨attempts - 1, by omega⟩
  unfold synthesis_worker workerGo
  rw [h2]
  simp only [Bool.false_eq_true, if_false]
  have hc : (pyStrip (w.genAt 0) == "") = false := by
    simp only [beq_eq_false_iff_ne, ne_eq]
    exact h3
  rw [hc]
  simp only [Bool.false_eq_true, if_false, h4]
  have ho : (original_question == "") = false := by
    simp only [beq_eq_false_iff_ne, ne_eq]
    exact h6
  simp [ho, h5]

/-- C6 witness: a concrete root-node worker hitting the semantic gate. -/
theorem worker_semantic_fail_fast_witness :
    synthesis_worker
      ⟨fun _ => false, fun _ => "theorem x : True := trivial",
        .parsed (some "level_3"), fun _ => true⟩ 12 true "prove 1+1=2" =
      ⟨none, 0, 1⟩ :=
  worker_semantic_fail_fast _ 12 "prove 1+1=2" (some "level_3")
    (by decide) rfl (by decide) rfl rfl (by decide)

/-! ## Post-order DFS: structural facts

`potGo_basic` collects the fuel-independent facts about
`post_order_traverse`: the visited set only grows (as a suffix extension),
the build list only grows by appends, it stays duplicate-free, every listed
node is visited, and no node that was already visited on entry is appended
during the call. -/

theorem potGo_zero (g : ConceptualGraph) (nid : Nat) (st : List Nat × List Nat) :
    potGo g 0 nid st = st := rfl

theorem potGo_succ_mem (g : ConceptualGraph) (fuel nid : Nat)
    (vis ord : List Nat) (hv : nid ∈ vis) :
    potGo g (fuel + 1) nid (vis, ord) = (vis, ord) := by
  simp only [potGo]
  rw [if_pos hv]

theorem potGo_succ_not_mem (g : ConceptualGraph) (fuel nid : Nat)
    (vis ord : List Nat) (hv : nid ∉ vis) :
    potGo g (fuel + 1) nid (vis, ord) =
      (((getDeps g nid).foldl (fun s d => potGo g fuel d s) (nid :: vis, ord)).1,
       ((getDeps g nid).foldl (fun s d => potGo g fuel d s) (nid :: vis, ord)).2
         ++ [nid]) := by
  simp only [potGo]
  rw [if_neg hv]

theorem potGo_basic (g : ConceptualGraph) :
    ∀ (fuel : Nat) (nid : Nat) (vis ord : List Nat),
      ord.Nodup → (∀ x ∈ ord, x ∈ vis) →
      vis <:+ (potGo g fuel nid (vis, ord)).1 ∧
      (∃ new, (potGo g fuel nid (vis, ord)).2 = ord ++ new) ∧
      (potGo g fuel nid (vis, ord)).2.Nodup ∧
      (∀ x ∈ (potGo g fuel nid (vis, ord)).2, x ∈ (potGo g fuel nid (vis, ord)).1) ∧
      (∀ x ∈ vis, x ∈ (potGo g fuel nid (vis, ord)).2 → x ∈ ord) := by
  intro fuel
  induction fuel with
  | zero =>
    intro nid vis ord h1 h2
    rw [potGo_zero]
    exact ⟨List.suffix_refl vis, ⟨[], (List.append_nil ord).symm⟩, h1, h2,
      fun x _ hx => hx⟩
  | succ fuel ih =>
    intro nid vis ord h1 h2
    by_cases hv : nid ∈ vis
    · rw [potGo_succ_mem g fuel nid vis ord hv]
      exact ⟨List.suffix_refl vis, ⟨[], (List.append_nil ord).symm⟩, h1, h2,
        fun x _ hx => hx⟩
    · rw [potGo_succ_not_mem g fuel nid vis ord hv]
      have hfold : ∀ (ds : List Nat) (vis0 ord0 : List Nat),
          ord0.Nodup → (∀ x ∈ ord0, x ∈ vis0) →
          vis0 <:+ (ds.foldl (fun s d => potGo g fuel d s) (vis0, ord0)).1 ∧
          (∃ new, (ds.foldl (fun s d => potGo g fuel d s) (vis0, ord0)).2
            = ord0 ++ new) ∧
          (ds.foldl (fun s d => potGo g fuel d s) (vis0, ord0)).2.Nodup ∧
          (∀ x ∈ (ds.foldl (fun s d => potGo g fuel d s) (vis0, ord0)).2,
            x ∈ (ds.foldl (fun s d => potGo g fuel d s) (vis0, ord0)).1) ∧
          (∀ x ∈ vis0,
            x ∈ (ds.foldl (fun s d => potGo g fuel d s) (vis0, ord0)).2 →
            x ∈ ord0) := by
        intro ds
        induction ds with
        | nil =>
          intro vis0 ord0 g1 g2
          exact ⟨List.suffix_refl vis0, ⟨[], (List.append_nil ord0).symm⟩, g1, g2,
            fun x _ hx => hx⟩
        | cons d ds ihd =>
          intro vis0 ord0 g1 g2
          rw [List.foldl_cons]
          have hstep := ih d vis0 ord0 g1 g2
          obtain ⟨s1, s2, s3, s4, s5⟩ := hstep
          have hpair : potGo g fuel d (vis0, ord0) =
              ((potGo g fuel d (vis0, ord0)).1, (potGo g fuel d (vis0, ord0)).2) := rfl
          rw [hpair]
          have hnext := ihd (potGo g fuel d (vis0, ord0)).1
            (potGo g fuel d (vis0, ord0)).2 s3 s4
          obtain ⟨t1, t2, t3, t4, t5⟩ := hnext
          refine ⟨s1.trans t1, ?_, t3, t4, ?_⟩
          · obtain ⟨n1, hn1⟩ := s2
            obtain ⟨n2, hn2⟩ := t2
            exact ⟨n1 ++ n2, by rw [hn2, hn1, List.append_assoc]⟩
          · intro x hx hx2
            exact s5 x hx (t5 x (s1.subset hx) hx2)
      have hmain := hfold (getDeps g nid) (nid :: vis) ord h1
        (fun x hx => List.mem_cons_of_mem nid (h2 x hx))
      obtain ⟨m1, m2, m3, m4, m5⟩ := hmain
      have hnidvis : nid ∈ ((getDeps g nid).foldl
          (fun s d => potGo g fuel d s) (nid :: vis, ord)).1 :=
        m1.subset (List.mem_cons_self nid vis)
      have hnidord : nid ∉ ((getDeps g nid).foldl
          (fun s d => potGo g fuel d s) (nid :: vis, ord)).2 := by
        intro hmem
        exact hv (h2 nid (m5 nid (List.mem_cons_self nid vis) hmem))
      refine ⟨?_, ?_, ?_, ?_, ?_⟩
      · exact (List.suffix_cons nid vis).trans m1
      · obtain ⟨n1, hn1⟩ := m2
        exact ⟨n1 ++ [nid], by rw [hn1, List.append_assoc]⟩
      · refine List.Nodup.append m3 (by simp) ?_
        intro a ha hb
        simp only [List.mem_singleton] at hb
        subst hb
        exact hnidord ha
      · intro x hx
        rcases List.mem_append.mp hx with hl | hr
        · exact m4 x hl
        · simp only [List.mem_singleton] at hr
          subst hr
          exact hnidvis
      · intro x hx hx2
        rcases List.mem_append.mp hx2 with hl | hr
        · exact m5 x (List.mem_cons_of_mem nid hx) hl
        · simp only [List.mem_singleton] at hr
          subst hr
          exact absurd hx hv

/-- `get_build_order` never lists a node twice (the identity-keyed revisit
guard), for every graph. -/
theorem build_order_nodup (g : ConceptualGraph) : (get_build_order g).Nodup :=
  (potGo_basic g (g.nodes.length + 1) g.rootId [] [] (by simp) (by simp)).2.2.1

/-! ## The synthesis run loop: step facts -/

theorem getNode_mem {g : ConceptualGraph} {nid : Nat} {n : ConceptNode}
    (h : getNode g nid = some n) : n ∈ g.nodes ∧ n.id = nid := by
  unfold getNode at h
  refine ⟨List.mem_of_find?_eq_some h, ?_⟩
  have h2 := List.find?_some h
  simpa using h2

/-! ### Ranked DFS: `get_build_order` under an acyclicity witness

`idxOf` position lemmas, and the rank-indexed strengthening of the DFS
invariant: with a rank function decreasing along dependency edges, the
post-order emits every dependency of an emitted node strictly earlier. -/

theorem idxOf_append_left (a : Nat) : ∀ (l l2 : List Nat), a ∈ l →
    idxOf a (l ++ l2) = idxOf a l := by
  intro l
  induction l with
  | nil => intro l2 h; cases h
  | cons x xs ih =>
    intro l2 h
    by_cases hx : x = a
    · simp [idxOf, hx]
    · rcases List.mem_cons.mp h with h1 | h1
      · exact absurd h1.symm hx
      · simp [idxOf, hx, ih l2 h1]

theorem idxOf_lt_length (a : Nat) : ∀ (l : List Nat), a ∈ l →
    idxOf a l < l.length := by
  intro l
  induction l with
  | nil => intro h; cases h
  | cons x xs ih =>
    intro h
    by_cases hx : x = a
    · simp [idxOf, hx]
    · rcases List.mem_cons.mp h with h1 | h1
      · exact absurd h1.symm hx
      · simp only [idxOf, hx, if_false, List.length_cons]
        exact Nat.succ_lt_succ (ih h1)

theorem idxOf_append_self (a : Nat) : ∀ (l : List Nat), a ∉ l →
    idxOf a (l ++ [a]) = l.length := by
  intro l
  induction l with
  | nil => intro _; simp [idxOf]
  | cons x xs ih =>
    intro h
    have hx : ¬ x = a := fun hh => h (hh ▸ List.mem_cons_self _ _)
    simp only [List.cons_append, idxOf, hx, if_false, List.length_cons]
    exact congrArg (fun n => n + 1) (ih (fun hh => h (List.mem_cons_of_mem _ hh)))

theorem getDeps_closed (g : ConceptualGraph) (hclosed : DepsClosed g)
    (nid : Nat) : ∀ d ∈ getDeps g nid, d ∈ idsOf g := by
  intro d hd
  unfold getDeps at hd
  cases hgn : getNode g nid with
  | none => rw [hgn] at hd; cases hd
  | some node =>
    rw [hgn] at hd
    exact hclosed node (getNode_mem hgn).1 d hd

theorem potGo_rank (g : ConceptualGraph) (rank : Nat → Nat)
    (hclosed : DepsClosed g) (hrank : DepRanked g rank) :
    ∀ (fuel : Nat) (nid : Nat) (vis ord : List Nat),
      nid ∈ idsOf g →
      (∀ v ∈ vis, v ∈ idsOf g) →
      vis.Nodup →
      (idsOf g).length < fuel + vis.length →
      (∀ v ∈ vis, v ∉ ord → rank nid < rank v) →
      (∀ a ∈ ord, ∀ d ∈ getDeps g a, d ∈ ord ∧ idxOf d ord < idxOf a ord) →
      ord.Nodup →
      (∀ a ∈ ord, a ∈ vis) →
      PotOut g nid vis ord (potGo g fuel nid (vis, ord)) := by
  intro fuel
  induction fuel with
  | zero =>
    intro nid vis ord _ hvisids hvisnd hfuel _ _ _ _
    exfalso
    have hsub : vis ⊆ idsOf g := fun v hv => hvisids v hv
    have hle : vis.length ≤ (idsOf g).length :=
      (List.Nodup.subperm hvisnd hsub).length_le
    omega
  | succ fuel ih =>
    intro nid vis ord hnid hvisids hvisnd hfuel hgray hinv hordnd hordvis
    by_cases hmem : nid ∈ vis
    · -- the visited guard fires; by the gray bound nid must already be black
      have hblack : nid ∈ ord := by
        by_contra hb
        exact absurd (hgray nid hmem hb) (Nat.lt_irrefl _)
      rw [potGo_succ_mem g fuel nid vis ord hmem]
      exact { visSuffix := List.suffix_refl _,
              ordExtends := ⟨[], (List.append_nil _).symm⟩,
              ordNodup := hordnd,
              ordInv := hinv,
              ordSubVis := hordvis,
              selfMem := hblack,
              grayFrozen := fun v _ hvo => hvo,
              visIds := hvisids,
              visNodup := hvisnd,
              newBlack := fun v hv hnv => absurd hv hnv }
    · rw [potGo_succ_not_mem g fuel nid vis ord hmem]
      have hdepsids : ∀ d ∈ getDeps g nid, d ∈ idsOf g := getDeps_closed g hclosed nid
      have hdepsrank : ∀ d ∈ getDeps g nid, rank d < rank nid := hrank nid hnid
      have hnidord : nid ∉ ord := fun h => hmem (hordvis nid h)
      -- facts preserved along the dependency fold
      have hfold : ∀ (deps : List Nat), (∀ d ∈ deps, d ∈ idsOf g) →
          (∀ d ∈ deps, rank d < rank nid) →
          ∀ (vis1 ord1 : List Nat),
          ((nid :: vis) <:+ vis1) →
          (∀ v ∈ vis1, v ∈ idsOf g) →
          vis1.Nodup →
          (idsOf g).length < fuel + vis1.length →
          (∀ v ∈ vis1, v ∉ ord1 → rank nid ≤ rank v) →
          (∀ a ∈ ord1, ∀ d ∈ getDeps g a, d ∈ ord1 ∧ idxOf d ord1 < idxOf a ord1) →
          ord1.Nodup →
          (∀ a ∈ ord1, a ∈ vis1) →
          nid ∉ ord1 →
          (∀ v ∈ vis, v ∉ ord → v ∉ ord1) →
          (∀ v ∈ vis1, v ∉ (nid :: vis) → v ∈ ord1) →
          (vis1 <:+ (deps.foldl (fun s d => potGo g fuel d s) (vis1, ord1)).1) ∧
          (∃ new, (deps.foldl (fun s d => potGo g fuel d s) (vis1, ord1)).2
            = ord1 ++ new) ∧
          (deps.foldl (fun s d => potGo g fuel d s) (vis1, ord1)).2.Nodup ∧
          (∀ a ∈ (deps.foldl (fun s d => potGo g fuel d s) (vis1, ord1)).2,
            ∀ d ∈ getDeps g a,
            d ∈ (deps.foldl (fun s d => potGo g fuel d s) (vis1, ord1)).2 ∧
            idxOf d (deps.foldl (fun s d => potGo g fuel d s) (vis1, ord1)).2 <
              idxOf a (deps.foldl (fun s d => potGo g fuel d s) (vis1, ord1)).2) ∧
          (∀ a ∈ (deps.foldl (fun s d => potGo g fuel d s) (vis1, ord1)).2,
            a ∈ (deps.foldl (fun s d => potGo g fuel d s) (vis1, ord1)).1) ∧
          (∀ d ∈ deps,
            d ∈ (deps.foldl (fun s d => potGo g fuel d s) (vis1, ord1)).2) ∧
          nid ∉ (deps.foldl (fun s d => potGo g fuel d s) (vis1, ord1)).2 ∧
          (∀ v ∈ vis, v ∉ ord →
            v ∉ (deps.foldl (fun s d => potGo g fuel d s) (vis1, ord1)).2) ∧
          (∀ v ∈ (deps.foldl (fun s d => potGo g fuel d s) (vis1, ord1)).1,
            v ∈ idsOf g) ∧
          (deps.foldl (fun s d => potGo g fuel d s) (vis1, ord1)).1.Nodup ∧
          (∀ v ∈ (deps.foldl (fun s d => potGo g fuel d s) (vis1, ord1)).1,
            v ∉ (nid :: vis) →
            v ∈ (deps.foldl (fun s d => potGo g fuel d s) (vis1, ord1)).2) := by
        intro deps
        induction deps with
        | nil =>
          intro _ _ vis1 ord1 h1 h2 h3 h4 h5 h6 h7 h8 h9 h10 h11
          exact ⟨List.suffix_refl _, ⟨[], (List.append_nil _).symm⟩, h7, h6, h8,
            fun d hd => absurd hd (List.not_mem_nil d), h9, h10, h2, h3, h11⟩
        | cons d ds ihd =>
          intro hdsids hdsrank vis1 ord1 h1 h2 h3 h4 h5 h6 h7 h8 h9 h10 h11
          rw [List.foldl_cons]
          have hdid : d ∈ idsOf g := hdsids d (List.mem_cons_self _ _)
          have hdrank : rank d < rank nid := hdsrank d (List.mem_cons_self _ _)
          have hcall := ih d vis1 ord1 hdid h2 h3 h4
            (fun v hv hvo => Nat.lt_of_lt_of_le hdrank (h5 v hv hvo))
            h6 h7 h8
          set out1 := potGo g fuel d (vis1, ord1) with hout1
          obtain ⟨new1, hnew1⟩ := hcall.ordExtends
          -- re-establish the fold invariants for the remaining dependencies
          have r1 : (nid :: vis) <:+ out1.1 := h1.trans hcall.visSuffix
          have r4 : (idsOf g).length < fuel + out1.1.length := by
            have := hcall.visSuffix.length_le
            omega
          have r5 : ∀ v ∈ out1.1, v ∉ out1.2 → rank nid ≤ rank v := by
            intro v hv hvo
            by_cases hvold : v ∈ vis1
            · refine h5 v hvold (fun hvo1 => hvo ?_)
              rw [hnew1]
              exact List.mem_append_left _ hvo1
            · exact absurd (hcall.newBlack v hv hvold) hvo
          have r9 : nid ∉ out1.2 := by
            have hnv1 : nid ∈ vis1 := h1.subset (List.mem_cons_self _ _)
            exact hcall.grayFrozen nid hnv1 h9
          have r10 : ∀ v ∈ vis, v ∉ ord → v ∉ out1.2 := by
            intro v hv hvo
            have hvv1 : v ∈ vis1 := h1.subset (List.mem_cons_of_mem _ hv)
            exact hcall.grayFrozen v hvv1 (h10 v hv hvo)
          have r11 : ∀ v ∈ out1.1, v ∉ (nid :: vis) → v ∈ out1.2 := by
            intro v hv hnv
            by_cases hvold : v ∈ vis1
            · rw [hnew1]
              exact List.mem_append_left _ (h11 v hvold hnv)
            · exact hcall.newBlack v hv hvold
          have hrest := ihd (fun x hx => hdsids x (List.mem_cons_of_mem _ hx))
            (fun x hx => hdsrank x (List.mem_cons_of_mem _ hx))
            out1.1 out1.2 r1 hcall.visIds hcall.visNodup r4 r5
            hcall.ordInv hcall.ordNodup hcall.ordSubVis r9 r10 r11
          obtain ⟨q1, ⟨new2, hnew2⟩, q3, q4, q5, q6, q7, q8, q9, q10, q11⟩ :=
            hrest
          have houtpair : (ds.foldl (fun s d => potGo g fuel d s) out1)
              = ds.foldl (fun s d => potGo g fuel d s) (out1.1, out1.2) := by
            rw [Prod.mk.eta]
          rw [houtpair]
          refine ⟨hcall.visSuffix.trans q1,
            ⟨new1 ++ new2, by rw [hnew2, hnew1, List.append_assoc]⟩,
            q3, q4, q5, ?_, q7, q8, q9, q10, q11⟩
          intro x hx
          rcases List.mem_cons.mp hx with rfl | hx2
          · rw [hnew2]
            exact List.mem_append_left _ hcall.selfMem
          · exact q6 x hx2
      have hinitfuel : (idsOf g).length < fuel + (nid :: vis).length := by
        simp only [List.length_cons]
        omega
      have hinitgray : ∀ v ∈ nid :: vis, v ∉ ord → rank nid ≤ rank v := by
        intro v hv hvo
        rcases List.mem_cons.mp hv with rfl | hv2
        · exact Nat.le_refl _
        · exact Nat.le_of_lt (hgray v hv2 hvo)
      have hF := hfold (getDeps g nid) hdepsids hdepsrank (nid :: vis) ord
        (List.suffix_refl _)
        (fun v hv => by
          rcases List.mem_cons.mp hv with rfl | hv2
          · exact hnid
          · exact hvisids v hv2)
        (List.nodup_cons.mpr ⟨hmem, hvisnd⟩)
        hinitfuel hinitgray hinv hordnd
        (fun a ha => List.mem_cons_of_mem _ (hordvis a ha))
        hnidord
        (fun v _ hvo hvo1 => hvo hvo1)
        (fun v hv hnv => absurd hv hnv)
      obtain ⟨f1, ⟨newF, hnewF⟩, f3, f4, f5, f6, f7, f8, f9, f10, f11⟩ := hF
      refine ⟨?_, ?_, ?_, ?_, ?_, ?_, ?_, ?_, ?_, ?_⟩
      · exact (List.suffix_cons nid vis).trans f1
      · exact ⟨newF ++ [nid], by rw [hnewF, List.append_assoc]⟩
      · refine List.nodup_append.mpr ⟨f3, List.nodup_singleton _, ?_⟩
        intro a ha hb
        rw [List.mem_singleton] at hb
        exact f7 (hb ▸ ha)
      · intro a ha d hd
        rcases List.mem_append.mp ha with ha2 | ha2
        · obtain ⟨hd1, hd2⟩ := f4 a ha2 d hd
          refine ⟨List.mem_append_left _ hd1, ?_⟩
          rw [idxOf_append_left d _ _ hd1, idxOf_append_left a _ _ ha2]
          exact hd2
        · rw [List.mem_singleton] at ha2
          subst ha2
          have hd1 := f6 d hd
          refine ⟨List.mem_append_left _ hd1, ?_⟩
          rw [idxOf_append_left d _ _ hd1, idxOf_append_self a _ f7]
          exact idxOf_lt_length d _ hd1
      · intro a ha
        rcases List.mem_append.mp ha with ha2 | ha2
        · exact f5 a ha2
        · rw [List.mem_singleton] at ha2
          subst ha2
          exact f1.subset (List.mem_cons_self _ _)
      · exact List.mem_append_right _ (List.mem_singleton_self _)
      · intro v hv hvo hmem2
        rcases List.mem_append.mp hmem2 with h2 | h2
        · exact f8 v hv hvo h2
        · rw [List.mem_singleton] at h2
          exact hmem (h2 ▸ hv)
      · exact f9
      · exact f10
      · intro v hv hnv
        by_cases hvnid : v = nid
        · exact List.mem_append_right _ (hvnid ▸ List.mem_singleton_self _)
        · refine List.mem_append_left _ (f11 v hv ?_)
          intro h2
          rcases List.mem_cons.mp h2 with h3 | h3
          · exact hvnid h3
          · exact hnv h3
theorem synthRun_def (s : RunScript) (g : ConceptualGraph) :
    synthRun s g =
      (build_final_code_string ((get_build_order g).foldl (runStep s g)
        { cache := [], grounded := [], pieces := [joinSep "\n" BASE_IMPORTS],
          launches := 0, skipped := [], writes := [], halted := false }).pieces,
       (get_build_order g).foldl (runStep s g)
        { cache := [], grounded := [], pieces := [joinSep "\n" BASE_IMPORTS],
          launches := 0, skipped := [], writes := [], halted := false }) := rfl

theorem pasteFromKb_pieces_mono (kb : List (String × KBEntry)) :
    ∀ (fuel : Nat) (key : String)
      (st : List String × List (String × String) × List String × List String),
      ∃ add, (pasteFromKb kb fuel key st).1 = st.1 ++ add := by
  intro fuel
  induction fuel with
  | zero =>
    intro key st
    exact ⟨[], (List.append_nil st.1).symm⟩
  | succ fuel ih =>
    intro key st
    obtain ⟨pieces, cache, grounded, writes⟩ := st
    show ∃ add, (pasteFromKb kb (fuel + 1) key (pieces, cache, grounded, writes)).1
      = pieces ++ add
    unfold pasteFromKb
    split
    · exact ⟨[], (List.append_nil pieces).symm⟩
    · split
      · exact ⟨[], (List.append_nil pieces).symm⟩
      · rename_i entry heq
        have hfold : ∀ (ds : List String)
            (st0 : List String × List (String × String) × List String × List String),
            ∃ add, (ds.foldl (fun s d => pasteFromKb kb fuel d s) st0).1
              = st0.1 ++ add := by
          intro ds
          induction ds with
          | nil =>
            intro st0
            exact ⟨[], (List.append_nil st0.1).symm⟩
          | cons d ds ihd =>
            intro st0
            rw [List.foldl_cons]
            obtain ⟨a1, ha1⟩ := ih d st0
            obtain ⟨a2, ha2⟩ := ihd (pasteFromKb kb fuel d st0)
            exact ⟨a1 ++ a2, by rw [ha2, ha1, List.append_assoc]⟩
        obtain ⟨a1, ha1⟩ := hfold entry.deps (pieces, cache, grounded, writes)
        refine ⟨a1 ++ [kbSeparator key ++ "\n" ++ entry.code], ?_⟩
        rw [← List.append_assoc, ← ha1]

/-- Every run-loop step only appends to `final_code_pieces`. -/
theorem runStep_pieces_mono (s : RunScript) (g : ConceptualGraph)
    (st : RunState) (nid : Nat) :
    ∃ add, (runStep s g st nid).pieces = st.pieces ++ add := by
  unfold runStep
  split
  · exact ⟨[], (List.append_nil st.pieces).symm⟩
  · split
    · exact ⟨[], (List.append_nil st.pieces).symm⟩
    · split
      · exact ⟨[], (List.append_nil st.pieces).symm⟩
      · split
        · exact pasteFromKb_pieces_mono s.verified_kb _ _ _
        · exact ⟨[], (List.append_nil st.pieces).symm⟩
      · split
        · exact ⟨[], (List.append_nil st.pieces).symm⟩
        · split
          · exact ⟨_, rfl⟩
          · exact ⟨_, rfl⟩

/-- A run-loop step either preserves the halted flag or sets it while
appending the fatal marker for the failing node. -/
theorem runStep_halted_cases (s : RunScript) (g : ConceptualGraph)
    (st : RunState) (nid : Nat)
    (hh : (runStep s g st nid).halted = true) :
    st.halted = true ∨
      ∃ nm, (runStep s g st nid).pieces =
        st.pieces ++ ["-- FATAL: " ++ nm ++ " synthesis failed."] := by
  revert hh
  unfold runStep
  split
  · exact fun hh => Or.inl hh
  · split
    · exact fun hh => Or.inl hh
    · split
      · exact fun hh => Or.inl hh
      · split
        · exact fun hh => Or.inl hh
        · exact fun hh => Or.inl hh
      · split
        · exact fun hh => Or.inl hh
        · split
          · exact fun hh => Or.inl hh
          · exact fun _ => Or.inr ⟨_, rfl⟩

/-- A run-loop step keeps the fatal-marker invariant: once `halted`, some
`-- FATAL: <name> synthesis failed.` piece is present. -/
theorem runStep_halted_marker (s : RunScript) (g : ConceptualGraph)
    (st : RunState) (nid : Nat)
    (h : st.halted = true →
      ∃ nm, ("-- FATAL: " ++ nm ++ " synthesis failed.") ∈ st.pieces) :
    (runStep s g st nid).halted = true →
      ∃ nm, ("-- FATAL: " ++ nm ++ " synthesis failed.") ∈
        (runStep s g st nid).pieces := by
  intro hh
  rcases runStep_halted_cases s g st nid hh with h0 | ⟨nm, hnm⟩
  · obtain ⟨nm, hmem⟩ := h h0
    obtain ⟨add, hadd⟩ := runStep_pieces_mono s g st nid
    exact ⟨nm, by rw [hadd]; exact List.mem_append_left _ hmem⟩
  · exact ⟨nm, by rw [hnm]; exact List.mem_append_right _ (by simp)⟩

/-- When no node is grounded from the VerifiedKB channel, one run-loop step
either leaves the cache write trace unchanged or appends exactly the
collapsed key of the `TO_SYNTHESIZE` node it processed. -/
theorem runStep_writes_cases (s : RunScript) (g : ConceptualGraph)
    (hnv : ∀ n ∈ g.nodes, n.grounded_definition ≠ GroundedDef.pyStr "VerifiedKB")
    (st : RunState) (nid : Nat) :
    (runStep s g st nid).writes = st.writes ∨
      ∃ node, getNode g nid = some node ∧
        node.status = NodeStatus.TO_SYNTHESIZE ∧
        (runStep s g st nid).writes =
          st.writes ++ [normalize_node_name (pyStrip node.name)] := by
  unfold runStep
  split
  · exact Or.inl rfl
  · split
    · exact Or.inl rfl
    · split
      · exact Or.inl rfl
      · split
        · rename_i node hget _ _ hcond
          exact absurd (eq_of_beq hcond) (hnv node (getNode_mem hget).1)
        · exact Or.inl rfl
      · split
        · exact Or.inl rfl
        · split
          · rename_i node hget _ hstat _ _ code hpool
            exact Or.inr ⟨node, hget, hstat, rfl⟩
          · exact Or.inl rfl

/-- Fold invariant for the run loop's write trace: along a duplicate-free
chunk of the build order whose ids are fresh, every write is the collapsed
key of a distinct already-processed `TO_SYNTHESIZE` node, so the trace stays
duplicate-free (given injectivity of collapsed keys on such nodes). -/
theorem synthRun_writes_fold (s : RunScript) (g : ConceptualGraph)
    (hnv : ∀ n ∈ g.nodes, n.grounded_definition ≠ GroundedDef.pyStr "VerifiedKB")
    (hkeys : ∀ n ∈ g.nodes, ∀ m ∈ g.nodes, n.status = NodeStatus.TO_SYNTHESIZE →
      m.status = NodeStatus.TO_SYNTHESIZE →
      normalize_node_name (pyStrip n.name) = normalize_node_name (pyStrip m.name) →
      n = m) :
    ∀ (ord : List Nat), ord.Nodup →
    ∀ (seen : List Nat) (st : RunState),
      (∀ x ∈ ord, x ∉ seen) →
      st.writes.Nodup →
      (∀ k ∈ st.writes, ∃ n, n ∈ g.nodes ∧ n.status = NodeStatus.TO_SYNTHESIZE ∧
        n.id ∈ seen ∧ k = normalize_node_name (pyStrip n.name)) →
      (ord.foldl (runStep s g) st).writes.Nodup ∧
      (∀ k ∈ (ord.foldl (runStep s g) st).writes, ∃ n, n ∈ g.nodes ∧
        n.status = NodeStatus.TO_SYNTHESIZE ∧ n.id ∈ seen ++ ord ∧
        k = normalize_node_name (pyStrip n.name)) := by
  intro ord
  induction ord with
  | nil =>
    intro _ seen st _ hw hks
    refine ⟨hw, fun k hk => ?_⟩
    obtain ⟨n, h1, h2, h3, h4⟩ := hks k hk
    exact ⟨n, h1, h2, by simpa using h3, h4⟩
  | cons nid rest ih =>
    intro hnd seen st hfresh hw hks
    rw [List.foldl_cons]
    have hnd' : rest.Nodup := (List.nodup_cons.mp hnd).2
    have hnidrest : nid ∉ rest := (List.nodup_cons.mp hnd).1
    have hfresh' : ∀ x ∈ rest, x ∉ seen ++ [nid] := by
      intro x hx
      simp only [List.mem_append, List.mem_singleton]
      rintro (h | h)
      · exact hfresh x (List.mem_cons_of_mem _ hx) h
      · exact hnidrest (h ▸ hx)
    have hmain : ∀ st1 : RunState, st1.writes.Nodup →
        (∀ k ∈ st1.writes, ∃ n, n ∈ g.nodes ∧
          n.status = NodeStatus.TO_SYNTHESIZE ∧
          n.id ∈ seen ++ [nid] ∧ k = normalize_node_name (pyStrip n.name)) →
        (rest.foldl (runStep s g) st1).writes.Nodup ∧
        (∀ k ∈ (rest.foldl (runStep s g) st1).writes, ∃ n, n ∈ g.nodes ∧
          n.status = NodeStatus.TO_SYNTHESIZE ∧ n.id ∈ seen ++ nid :: rest ∧
          k = normalize_node_name (pyStrip n.name)) := by
      intro st1 hw1 hks1
      have hres := ih hnd' (seen ++ [nid]) st1 hfresh' hw1 hks1
      refine ⟨hres.1, fun k hk => ?_⟩
      obtain ⟨n, h1, h2, h3, h4⟩ := hres.2 k hk
      refine ⟨n, h1, h2, ?_, h4⟩
      simpa [List.append_assoc] using h3
    rcases runStep_writes_cases s g hnv st nid with hcase | ⟨node, hget, hstat, hcase⟩
    · refine hmain _ (hcase ▸ hw) (fun k hk => ?_)
      rw [hcase] at hk
      obtain ⟨n, h1, h2, h3, h4⟩ := hks k hk
      exact ⟨n, h1, h2, List.mem_append_left _ h3, h4⟩
    · obtain ⟨hnmem, hnid⟩ := getNode_mem hget
      have hkey_new : normalize_node_name (pyStrip node.name) ∉ st.writes := by
        intro hmem
        obtain ⟨m, hm1, hm2, hm3, hm4⟩ := hks _ hmem
        have heqnm : node = m := hkeys node hnmem m hm1 hstat hm2 hm4
        have : nid ∈ seen := by rw [← hnid, heqnm]; exact hm3
        exact hfresh nid (List.mem_cons_self _ _) this
      have hw1 : (runStep s g st nid).writes.Nodup := by
        rw [hcase]
        refine List.nodup_append.mpr ⟨hw, List.nodup_singleton _, ?_⟩
        intro a ha hb
        rw [List.mem_singleton] at hb
        exact hkey_new (hb ▸ ha)
      refine hmain _ hw1 (fun k hk => ?_)
      rw [hcase] at hk
      rcases List.mem_append.mp hk with hold | hnew
      · obtain ⟨n, h1, h2, h3, h4⟩ := hks k hold
        exact ⟨n, h1, h2, List.mem_append_left _ h3, h4⟩
      · rw [List.mem_singleton] at hnew
        exact ⟨node, hnmem, hstat, by rw [hnid]; simp, hnew⟩

/-- A `TO_SYNTHESIZE` node with missing transitive synthesized dependencies
is skipped: the loop body only logs a warning and `continue`s, so the state
is unchanged except for the ghost skip trace. -/
theorem runStep_skip (s : RunScript) (g : ConceptualGraph) (st : RunState)
    (nid : Nat) (node : ConceptNode)
    (hhalt : st.halted = false) (hget : getNode g nid = some node)
    (hstat : node.status = NodeStatus.TO_SYNTHESIZE)
    (hmiss : collect_missing g st.cache st.grounded s.verified_kb nid ≠ []) :
    runStep s g st nid = { st with skipped := st.skipped ++ [nid] } := by
  have hie : (collect_missing g st.cache st.grounded s.verified_kb nid).isEmpty
      = false := by
    cases h : collect_missing g st.cache st.grounded s.verified_kb nid with
    | nil => exact absurd h hmiss
    | cons a l => rfl
  unfold runStep
  simp only [hhalt, Bool.false_eq_true, if_false, hget, hstat, hie,
    Bool.not_false, if_true]

/-! ### The final document: every fatal marker survives `_build_final_code_string` -/

theorem containsSubstr_intro (s pat : String) (h : pat.data <:+: s.data) :
    containsSubstr s pat = true := by
  obtain ⟨t, hp, hs⟩ := List.infix_iff_prefix_suffix.mp h
  unfold containsSubstr
  rw [List.any_eq_true]
  exact ⟨t, (List.mem_tails _ _).mpr hs, List.isPrefixOf_iff_prefix.mpr hp⟩

theorem splitLinesGo_head : ∀ (l acc : List Char), ∃ t,
    splitLinesGo acc l =
      (acc.reverse ++ l.takeWhile (fun c => !(c == '\n'))) :: t := by
  intro l
  induction l with
  | nil =>
    intro acc
    exact ⟨[], by simp [splitLinesGo]⟩
  | cons c rest ih =>
    intro acc
    by_cases hc : c = '\n'
    · subst hc
      refine ⟨splitLinesGo [] rest, ?_⟩
      simp [splitLinesGo, List.takeWhile_cons]
    · obtain ⟨t, ht⟩ := ih (c :: acc)
      refine ⟨t, ?_⟩
      have hbeq : (c == '\n') = false := beq_eq_false_iff_ne.mpr hc
      simp only [splitLinesGo, if_neg hc, ht, List.takeWhile_cons, hbeq,
        Bool.not_false, if_true, List.reverse_cons, List.append_assoc,
        List.cons_append, List.nil_append]

theorem takeWhile_append_pre (f : Char → Bool) : ∀ (pre suf : List Char),
    (∀ c ∈ pre, f c = true) →
    (pre ++ suf).takeWhile f = pre ++ suf.takeWhile f := by
  intro pre
  induction pre with
  | nil => intro suf _; rfl
  | cons c cs ih =>
    intro suf h
    rw [List.cons_append, List.takeWhile_cons, h c (List.mem_cons_self _ _)]
    rw [ih suf (fun d hd => h d (List.mem_cons_of_mem _ hd))]
    rfl

theorem rdropWhile_append_prefix (q : Char → Bool) (l' : List Char) (x : Char)
    (suf : List Char) (hx : q x = false) :
    (l' ++ [x]) <+: List.rdropWhile q ((l' ++ [x]) ++ suf) := by
  unfold List.rdropWhile
  rw [List.reverse_append, List.reverse_append, List.reverse_singleton,
    List.singleton_append, List.dropWhile_append]
  split
  · rw [List.dropWhile_cons, hx]
    simp only [Bool.false_eq_true, if_false, List.reverse_cons,
      List.reverse_reverse]
    exact List.prefix_refl _
  · rw [List.reverse_append, List.reverse_cons, List.reverse_reverse]
    exact ⟨_, by rw [List.append_assoc]⟩

theorem joinSep_cons_data (sep : String) (x : String) (xs : List String) :
    ∃ ex, (joinSep sep (x :: xs)).data = x.data ++ ex := by
  cases xs with
  | nil => exact ⟨[], (List.append_nil _).symm⟩
  | cons y ys =>
    refine ⟨sep.data ++ (joinSep sep (y :: ys)).data, ?_⟩
    show (x ++ sep ++ joinSep sep (y :: ys)).data = _
    rw [String.data_append, String.data_append, List.append_assoc]

theorem mem_joinSep_data (sep : String) : ∀ (l : List String) (b : String),
    b ∈ l → b.data <:+: (joinSep sep l).data := by
  intro l
  induction l with
  | nil => intro b hb; cases hb
  | cons x xs ih =>
    intro b hb
    rcases List.mem_cons.mp hb with rfl | hb
    · obtain ⟨ex, hex⟩ := joinSep_cons_data sep b xs
      rw [hex]
      exact (List.prefix_append b.data ex).isInfix
    · cases xs with
      | nil => cases hb
      | cons y ys =>
        have h1 := ih b hb
        show b.data <:+: (x ++ sep ++ joinSep sep (y :: ys)).data
        rw [String.data_append]
        exact h1.trans (List.suffix_append _ _).isInfix

theorem buildFinalStep_snd_mono (acc : List String × List String)
    (piece : String) :
    ∃ add, (buildFinalStep acc piece).2 = acc.2 ++ add := by
  unfold buildFinalStep
  split
  · exact ⟨[], (List.append_nil _).symm⟩
  · split
    · exact ⟨[], (List.append_nil _).symm⟩
    · exact ⟨_, rfl⟩

theorem foldl_buildFinalStep_snd_mono :
    ∀ (l : List String) (acc : List String × List String),
    ∃ add, (l.foldl buildFinalStep acc).2 = acc.2 ++ add := by
  intro l
  induction l with
  | nil => intro acc; exact ⟨[], (List.append_nil _).symm⟩
  | cons p ps ih =>
    intro acc
    rw [List.foldl_cons]
    obtain ⟨a1, h1⟩ := buildFinalStep_snd_mono acc p
    obtain ⟨a2, h2⟩ := ih (buildFinalStep acc p)
    exact ⟨a1 ++ a2, by rw [h2, h1, List.append_assoc]⟩

theorem cons_getLast_dropLast (x : String) (xs : List String) (hx : x ≠ "") :
    ∃ rest, (if (x :: xs).getLast? == some "" then (x :: xs).dropLast
      else x :: xs) = x :: rest := by
  split
  · rename_i h
    have heq := eq_of_beq h
    cases xs with
    | nil =>
      exfalso
      rw [List.getLast?_singleton] at heq
      exact hx (Option.some.inj heq)
    | cons y ys => exact ⟨(y :: ys).dropLast, rfl⟩
  · exact ⟨xs, rfl⟩

theorem isImportLine_dash (t : List Char) : isImportLine ('-' :: t) = false := by
  unfold isImportLine
  simp only [List.dropWhile_cons, show pyIsSpace '-' = false from rfl,
    Bool.false_eq_true, if_false]
  rw [show List.isPrefixOf ("import" : String).data ('-' :: t) = false from rfl]
  simp

theorem buildFinalStep_marker (nm : String) (acc : List String × List String) :
    ∃ imps b, buildFinalStep acc ("-- FATAL: " ++ nm ++ " synthesis failed.")
        = (acc.1 ++ imps, acc.2 ++ [b]) ∧
      ("-- FATAL:" : String).data <+: b.data := by
  have hdata : ("-- FATAL: " ++ nm ++ " synthesis failed.").data
      = ("-- FATAL:" : String).data ++
        (' ' :: (nm.data ++ (" synthesis failed." : String).data)) := by
    rw [String.data_append, String.data_append]
    rw [show ("-- FATAL: " : String).data
      = ("-- FATAL:" : String).data ++ [' '] from rfl]
    simp [List.append_assoc]
  have hcons : ("-- FATAL: " ++ nm ++ " synthesis failed.").data
      = '-' :: (("- FATAL:" : String).data ++
        (' ' :: (nm.data ++ (" synthesis failed." : String).data))) := by
    rw [hdata]
    rfl
  have hdropw : ∀ (t : List Char),
      List.dropWhile pyIsSpace ('-' :: t) = '-' :: t := by
    intro t
    rw [List.dropWhile_cons]
    simp [show pyIsSpace '-' = false from rfl]
  have hstrip : (pyStrip ("-- FATAL: " ++ nm ++ " synthesis failed.") == "")
      = false := by
    apply beq_eq_false_iff_ne.mpr
    intro h
    have h2 : pyStripList ("-- FATAL: " ++ nm ++ " synthesis failed.").data
        = [] := congrArg String.data h
    rw [hcons] at h2
    unfold pyStripList at h2
    rw [hdropw] at h2
    have h3 := List.rdropWhile_eq_nil_iff.mp h2 '-' (List.mem_cons_self _ _)
    exact absurd h3 (by decide)
  -- head line of splitlines
  obtain ⟨t0, ht0⟩ :=
    splitLinesGo_head ("-- FATAL: " ++ nm ++ " synthesis failed.").data []
  have hmarknl : ∀ c ∈ ("-- FATAL:" : String).data, (!(c == '\n')) = true := by
    decide
  have htake : (("-- FATAL: " ++ nm ++ " synthesis failed.").data).takeWhile
        (fun c => !(c == '\n'))
      = ("-- FATAL:" : String).data ++
        ((' ' :: (nm.data ++ (" synthesis failed." : String).data)).takeWhile
          (fun c => !(c == '\n'))) := by
    rw [hdata]
    exact takeWhile_append_pre _ _ _ hmarknl
  have ht1 : splitLinesGo [] ("-- FATAL: " ++ nm ++ " synthesis failed.").data
      = (("-- FATAL:" : String).data ++
          ((' ' :: (nm.data ++ (" synthesis failed." : String).data)).takeWhile
            (fun c => !(c == '\n')))) :: t0 := by
    rw [ht0, htake]
    simp
  have hne : ("-- FATAL: " ++ nm ++ " synthesis failed.").data.isEmpty
      = false := by rw [hcons]; rfl
  have hmkne : (⟨("-- FATAL:" : String).data ++
      ((' ' :: (nm.data ++ (" synthesis failed." : String).data)).takeWhile
        (fun c => !(c == '\n')))⟩ : String) ≠ "" := by
    intro h
    have h2 := congrArg String.data h
    simp only [String.data] at h2
    exact absurd (List.append_eq_nil.mp h2).1 (by decide)
  have hsplit : ∃ rest,
      pySplitlines ("-- FATAL: " ++ nm ++ " synthesis failed.")
      = (⟨("-- FATAL:" : String).data ++
          ((' ' :: (nm.data ++ (" synthesis failed." : String).data)).takeWhile
            (fun c => !(c == '\n')))⟩ : String) :: rest := by
    unfold pySplitlines
    rw [hne]
    simp only [Bool.false_eq_true, if_false]
    rw [ht1]
    simp only [List.map_cons]
    exact cons_getLast_dropLast _ _ hmkne
  obtain ⟨rest, hsplit⟩ := hsplit
  -- the head line is not an import line
  have himp : isImportLine (("-- FATAL:" : String).data ++
      ((' ' :: (nm.data ++ (" synthesis failed." : String).data)).takeWhile
        (fun c => !(c == '\n')))) = false :=
    isImportLine_dash (("- FATAL:" : String).data ++
      ((' ' :: (nm.data ++ (" synthesis failed." : String).data)).takeWhile
        (fun c => !(c == '\n'))))
  have hfilter : (((⟨("-- FATAL:" : String).data ++
        ((' ' :: (nm.data ++ (" synthesis failed." : String).data)).takeWhile
          (fun c => !(c == '\n')))⟩ : String)) :: rest).filter
        (fun ln => !isImportLine ln.data)
      = (⟨("-- FATAL:" : String).data ++
          ((' ' :: (nm.data ++ (" synthesis failed." : String).data)).takeWhile
            (fun c => !(c == '\n')))⟩ : String) ::
        rest.filter (fun ln => !isImportLine ln.data) := by
    refine List.filter_cons_of_pos ?_
    show (!isImportLine (("-- FATAL:" : String).data ++
      ((' ' :: (nm.data ++ (" synthesis failed." : String).data)).takeWhile
        (fun c => !(c == '\n'))))) = true
    rw [himp]
    rfl
  obtain ⟨ex, hex⟩ := joinSep_cons_data "\n"
    (⟨("-- FATAL:" : String).data ++
      ((' ' :: (nm.data ++ (" synthesis failed." : String).data)).takeWhile
        (fun c => !(c == '\n')))⟩ : String)
    (rest.filter (fun ln => !isImportLine ln.data))
  have hshape : ((⟨("-- FATAL:" : String).data ++
        ((' ' :: (nm.data ++ (" synthesis failed." : String).data)).takeWhile
          (fun c => !(c == '\n')))⟩ : String)).data ++ ex
      = (("-- FATAL" : String).data ++ [':']) ++
        (((' ' :: (nm.data ++ (" synthesis failed." : String).data)).takeWhile
          (fun c => !(c == '\n'))) ++ ex) := by
    show ("-- FATAL:" : String).data ++ _ ++ ex = _
    rw [List.append_assoc]
    rfl
  have hpre : ("-- FATAL:" : String).data <+:
      (pyStrip (joinSep "\n"
        ((⟨("-- FATAL:" : String).data ++
          ((' ' :: (nm.data ++ (" synthesis failed." : String).data)).takeWhile
            (fun c => !(c == '\n')))⟩ : String) ::
          rest.filter (fun ln => !isImportLine ln.data)))).data := by
    show _ <+: pyStripList (joinSep "\n" _).data
    rw [hex]
    unfold pyStripList
    rw [hshape]
    rw [show (("-- FATAL" : String).data ++ [':']) ++
        (((' ' :: (nm.data ++ (" synthesis failed." : String).data)).takeWhile
          (fun c => !(c == '\n'))) ++ ex)
      = '-' :: (("- FATAL" : String).data ++ [':'] ++
        (((' ' :: (nm.data ++ (" synthesis failed." : String).data)).takeWhile
          (fun c => !(c == '\n'))) ++ ex)) from rfl]
    rw [hdropw]
    rw [show '-' :: (("- FATAL" : String).data ++ [':'] ++
        (((' ' :: (nm.data ++ (" synthesis failed." : String).data)).takeWhile
          (fun c => !(c == '\n'))) ++ ex))
      = (("-- FATAL" : String).data ++ [':']) ++
        (((' ' :: (nm.data ++ (" synthesis failed." : String).data)).takeWhile
          (fun c => !(c == '\n'))) ++ ex) from by
        rw [List.append_assoc, List.append_assoc]
        rfl]
    rw [show ("-- FATAL:" : String).data
      = ("-- FATAL" : String).data ++ [':'] from rfl]
    exact rdropWhile_append_prefix pyIsSpace _ ':' _ rfl
  have hblock : (pyStrip (joinSep "\n"
      ((⟨("-- FATAL:" : String).data ++
        ((' ' :: (nm.data ++ (" synthesis failed." : String).data)).takeWhile
          (fun c => !(c == '\n')))⟩ : String) ::
        rest.filter (fun ln => !isImportLine ln.data))) == "") = false := by
    apply beq_eq_false_iff_ne.mpr
    intro h
    have h2 := congrArg String.data h
    rw [h2] at hpre
    have h3 := List.prefix_nil.mp hpre
    exact absurd h3 (by decide)
  refine ⟨((((⟨("-- FATAL:" : String).data ++
        ((' ' :: (nm.data ++ (" synthesis failed." : String).data)).takeWhile
          (fun c => !(c == '\n')))⟩ : String)) :: rest).filter
      (fun ln => isImportLine ln.data)).map
      (fun ln => (⟨collapseWsAux (pyStripList ln.data)⟩ : String)),
    pyStrip (joinSep "\n"
      ((⟨("-- FATAL:" : String).data ++
        ((' ' :: (nm.data ++ (" synthesis failed." : String).data)).takeWhile
          (fun c => !(c == '\n')))⟩ : String) ::
        rest.filter (fun ln => !isImportLine ln.data))), ?_, hpre⟩
  unfold buildFinalStep
  rw [hstrip]
  simp only [Bool.false_eq_true, if_false]
  rw [hsplit, hfilter, hblock]
  simp only [Bool.false_eq_true, if_false]

theorem fatal_marker_in_final (pieces : List String) (nm : String)
    (h : ("-- FATAL: " ++ nm ++ " synthesis failed.") ∈ pieces) :
    containsSubstr (build_final_code_string pieces) "-- FATAL:" = true := by
  obtain ⟨l1, l2, hdec⟩ := List.append_of_mem h
  obtain ⟨imps, b, hstep, hpre⟩ := buildFinalStep_marker nm
    (l1.foldl buildFinalStep (BASE_IMPORTS, []))
  obtain ⟨add, hadd⟩ := foldl_buildFinalStep_snd_mono l2
    (buildFinalStep (l1.foldl buildFinalStep (BASE_IMPORTS, []))
      ("-- FATAL: " ++ nm ++ " synthesis failed."))
  have hbmem : b ∈ (pieces.foldl buildFinalStep (BASE_IMPORTS, [])).2 := by
    rw [hdec, List.foldl_append, List.foldl_cons, hadd, hstep]
    simp
  have hne2 : (pieces.foldl buildFinalStep (BASE_IMPORTS, [])).2.isEmpty
      = false := by
    cases h2 : (pieces.foldl buildFinalStep (BASE_IMPORTS, [])).2 with
    | nil => rw [h2] at hbmem; cases hbmem
    | cons a l => rfl
  unfold build_final_code_string
  rw [hne2]
  simp only [Bool.false_eq_true, if_false]
  apply containsSubstr_intro
  rw [String.data_append]
  have h1 : ("-- FATAL:" : String).data <:+:
      (joinSep "\n\n" (pieces.foldl buildFinalStep (BASE_IMPORTS, [])).2).data :=
    hpre.isInfix.trans (mem_joinSep_data "\n\n" _ b hbmem)
  exact h1.trans (List.suffix_append _ _).isInfix

theorem runStep_halted_id (s : RunScript) (g : ConceptualGraph) (st : RunState)
    (nid : Nat) (h : st.halted = true) : runStep s g st nid = st := by
  unfold runStep
  rw [h]
  simp

theorem runStep_launches_cases (s : RunScript) (g : ConceptualGraph)
    (st : RunState) (nid : Nat) :
    (runStep s g st nid).launches = st.launches ∨
      (∃ c, s.poolAt st.launches = some c ∧
        (runStep s g st nid).launches = st.launches + 1) ∨
      ((runStep s g st nid).halted = true ∧
        (runStep s g st nid).launches = st.launches + 1) := by
  unfold runStep
  split
  · exact Or.inl rfl
  · split
    · exact Or.inl rfl
    · split
      · exact Or.inl rfl
      · split
        · exact Or.inl rfl
        · exact Or.inl rfl
      · split
        · exact Or.inl rfl
        · split
          · rename_i code hpool
            exact Or.inr (Or.inl ⟨code, hpool, rfl⟩)
          · exact Or.inr (Or.inr ⟨rfl, rfl⟩)

theorem foldl_runStep_halted_marker (s : RunScript) (g : ConceptualGraph) :
    ∀ (l : List Nat) (st : RunState),
      (st.halted = true →
        ∃ nm, ("-- FATAL: " ++ nm ++ " synthesis failed.") ∈ st.pieces) →
      ((l.foldl (runStep s g) st).halted = true →
        ∃ nm, ("-- FATAL: " ++ nm ++ " synthesis failed.") ∈
          (l.foldl (runStep s g) st).pieces) := by
  intro l
  induction l with
  | nil => intro st h; exact h
  | cons nid rest ih =>
    intro st h
    rw [List.foldl_cons]
    exact ih _ (runStep_halted_marker s g st nid h)

theorem foldl_runStep_launches (s : RunScript) (g : ConceptualGraph) :
    ∀ (l : List Nat) (st : RunState),
      (st.halted = false → ∀ i, i < st.launches → s.poolAt i ≠ none) →
      ((l.foldl (runStep s g) st).halted = false →
        ∀ i, i < (l.foldl (runStep s g) st).launches → s.poolAt i ≠ none) := by
  intro l
  induction l with
  | nil => intro st h; exact h
  | cons nid rest ih =>
    intro st h
    rw [List.foldl_cons]
    refine ih _ ?_
    intro hh i hi
    by_cases h0 : st.halted = true
    · rw [runStep_halted_id s g st nid h0] at hh hi
      exact h hh i hi
    · have h0' : st.halted = false := by
        cases hsth : st.halted
        · rfl
        · exact absurd hsth h0
      rcases runStep_launches_cases s g st nid with hA | ⟨c, hc, hB⟩ | ⟨hC, _⟩
      · rw [hA] at hi
        exact h h0' i hi
      · rw [hB] at hi
        rcases Nat.lt_succ_iff_lt_or_eq.mp hi with hlt | heqi
        · exact h h0' i hlt
        · rw [heqi, hc]
          simp
      · rw [hC] at hh
        cases hh

theorem runStep_fatal (s : RunScript) (g : ConceptualGraph) (st : RunState)
    (nid : Nat) (node : ConceptNode)
    (hhalt : st.halted = false) (hget : getNode g nid = some node)
    (hstat : node.status = NodeStatus.TO_SYNTHESIZE)
    (hmiss : collect_missing g st.cache st.grounded s.verified_kb nid = [])
    (hpool : s.poolAt st.launches = none) :
    runStep s g st nid = { st with
      pieces := st.pieces ++
        ["-- FATAL: " ++ pyStrip node.name ++ " synthesis failed."],
      launches := st.launches + 1, halted := true } := by
  have hie : (collect_missing g st.cache st.grounded s.verified_kb nid).isEmpty
      = true := by rw [hmiss]; rfl
  unfold runStep
  simp only [hhalt, Bool.false_eq_true, if_false, hget, hstat, hie,
    Bool.not_true, if_false, hpool]

/-! ## Claim C4 — planner dedup invariant -/

theorem idsOf_updateNode (g : ConceptualGraph) (nid : Nat)
    (f : ConceptNode → ConceptNode) (hid : ∀ n, (f n).id = n.id) :
    idsOf (updateNode g nid f) = idsOf g := by
  unfold idsOf updateNode
  rw [List.map_map]
  apply List.map_congr_left
  intro n _
  by_cases hb : n.id = nid
  · simp [Function.comp_apply, hb, hid]
  · simp [Function.comp_apply, hb]

theorem GraphInv_graphInit (q : String) : GraphInv (graphInit q) := by
  constructor
  · simp [graphInit, idsOf]
  · intro n hn
    simp only [graphInit, List.mem_singleton] at hn
    rw [hn]
    exact Nat.zero_lt_one
  · intro n hn
    simp only [graphInit, List.mem_singleton] at hn
    rw [hn]
    simp only [graphInit]
    rw [assocLookup_cons, if_pos (by simp)]

theorem GraphInv_updateNode (g : ConceptualGraph) (nid : Nat)
    (f : ConceptNode → ConceptNode)
    (hid : ∀ n, (f n).id = n.id) (hname : ∀ n, (f n).name = n.name)
    (h : GraphInv g) : GraphInv (updateNode g nid f) := by
  constructor
  · rw [idsOf_updateNode g nid f hid]
    exact h.idsNodup
  · intro n' hn'
    simp only [updateNode, List.mem_map] at hn'
    obtain ⟨n, hn, he⟩ := hn'
    have hb := h.idsBound n hn
    show n'.id < g.nextId
    by_cases hc : n.id = nid
    · rw [← he, if_pos (by simp [hc]), hid n]
      exact hb
    · rw [← he, if_neg (by simp [hc])]
      exact hb
  · intro n' hn'
    simp only [updateNode, List.mem_map] at hn'
    obtain ⟨n, hn, he⟩ := hn'
    have hcomp := h.indexComplete n hn
    show assocLookup g.nodesByName (nodeKey n') = some n'.id
    by_cases hc : n.id = nid
    · rw [← he, if_pos (by simp [hc])]
      unfold nodeKey
      rw [hname n, hid n]
      exact hcomp
    · rw [← he, if_neg (by simp [hc])]
      exact hcomp

theorem GraphInv_add_node (g : ConceptualGraph) (name : String) (parentId : Nat)
    (h : GraphInv g)
    (hlookup : assocLookup g.nodesByName (lowerStrip name) = none) :
    GraphInv (add_node g name parentId).1 := by
  have hg1 : GraphInv (updateNode g parentId
      (fun p => { p with dependencies := p.dependencies ++ [g.nextId] })) :=
    GraphInv_updateNode g parentId _ (fun n => rfl) (fun n => rfl) h
  have hkey : nodeKey ({ id := g.nextId, name := pyStrip name, status := NodeStatus.TO_EXPAND, dependencies := [], parent := some parentId, grounded_definition := GroundedDef.pyList [] } : ConceptNode) = lowerStrip name := by
    unfold nodeKey
    exact lowerStrip_pyStrip name
  constructor
  · have hsplit : idsOf (add_node g name parentId).1
        = idsOf (updateNode g parentId
            (fun p => { p with dependencies := p.dependencies ++ [g.nextId] }))
          ++ [g.nextId] := by
      simp only [idsOf, add_node]
      rw [List.map_append]
      rfl
    rw [hsplit, idsOf_updateNode g parentId
      (fun p => { p with dependencies := p.dependencies ++ [g.nextId] })
      (fun n => rfl)]
    refine List.Nodup.append h.idsNodup (by simp) ?_
    intro a ha hb
    simp only [List.mem_singleton] at hb
    subst hb
    simp only [idsOf, List.mem_map] at ha
    obtain ⟨n, hn, he⟩ := ha
    have := h.idsBound n hn
    omega
  · intro n' hn'
    rcases List.mem_append.mp hn' with hl | hr
    · have := hg1.idsBound n' hl
      show n'.id < g.nextId + 1
      exact Nat.lt_succ_of_lt this
    · simp only [List.mem_singleton] at hr
      rw [hr]
      show g.nextId < g.nextId + 1
      omega
  · intro n' hn'
    show assocLookup (assocSet _ _ g.nodesByName) (nodeKey n') = some n'.id
    rw [hkey, assocSet_of_none _ hlookup]
    rcases List.mem_append.mp hn' with hl | hr
    · exact assocLookup_append_of_some _ (hg1.indexComplete n' hl)
    · simp only [List.mem_singleton] at hr
      rw [hr, hkey, assocLookup_append_of_none _ hlookup, assocLookup_cons,
        if_pos (by simp)]

theorem GraphInv_processChildNames (selfLoopCheck : Bool) (parentId : Nat)
    (names : List String) :
    ∀ (g : ConceptualGraph) (q : List Nat) (log : List String),
    GraphInv g →
    GraphInv (processChildNames selfLoopCheck parentId names (g, q, log)).1 := by
  induction names with
  | nil =>
    intro g q log h
    exact h
  | cons name rest ih =>
    intro g q log h
    unfold processChildNames
    split
    · exact ih g q log h
    · split
      · -- a node with this key exists
        split
        · exact ih g q log h
        · split
          · exact ih g q log h
          · refine ih _ q log (GraphInv_updateNode g parentId _ ?_ ?_ h)
            · intro n
              rfl
            · intro n
              rfl
      · -- no node with this key: add_node
        rename_i hf
        have hlk : assocLookup g.nodesByName (lowerStrip name) = none := by
          have heq : find_node_by_name g (lowerStrip name)
              = assocLookup g.nodesByName (lowerStrip name) := by
            unfold find_node_by_name
            rw [lowerStrip_idem]
          rw [← heq]
          exact hf
        have hadd := GraphInv_add_node g name parentId h hlk
        split
        · exact ih _ q log hadd
        · exact ih _ _ _ hadd

theorem GraphInv_setStatusGrounded (g : ConceptualGraph) (nid : Nat)
    (defs : List String) (h : GraphInv g) :
    GraphInv (updateNode g nid (fun n =>
      { n with status := .GROUNDED, grounded_definition := .pyList defs })) :=
  GraphInv_updateNode g nid
    (fun n => { n with status := .GROUNDED, grounded_definition := .pyList defs })
    (fun _ => rfl) (fun _ => rfl) h

theorem GraphInv_setStatusSynth (g : ConceptualGraph) (nid : Nat)
    (h : GraphInv g) :
    GraphInv (updateNode g nid (fun n => { n with status := .TO_SYNTHESIZE })) :=
  GraphInv_updateNode g nid (fun n => { n with status := .TO_SYNTHESIZE })
    (fun _ => rfl) (fun _ => rfl) h

theorem GraphInv_plannerLoop (s : PlanScript) :
    ∀ (fuel : Nat) (st : PlannerState), GraphInv st.graph →
    GraphInv (plannerLoop s fuel st).graph := by
  intro fuel
  induction fuel with
  | zero =>
    intro st h
    exact h
  | succ fuel ih =>
    intro st h
    unfold plannerLoop
    split
    · exact h
    · split
      · exact h
      · split
        · refine ih _ ?_
          exact GraphInv_setStatusGrounded _ _ _ h
        · split <;> split
          · refine ih _ ?_
            exact GraphInv_setStatusGrounded _ _ _ h
          · refine ih _ ?_
            exact GraphInv_processChildNames true _ _ _ _ _
              (GraphInv_setStatusSynth _ _ h)
          · refine ih _ ?_
            exact GraphInv_setStatusGrounded _ _ _ h
          · refine ih _ ?_
            exact GraphInv_processChildNames true _ _ _ _ _
              (GraphInv_setStatusSynth _ _ h)

theorem GraphInv_plannerRun (s : PlanScript) (q : String) (fuel : Nat) :
    GraphInv (plannerRun s q fuel) := by
  unfold plannerRun
  refine GraphInv_plannerLoop s fuel _ ?_
  show GraphInv (processChildNames false _ _ _).1
  refine GraphInv_processChildNames false _ _ _ _ _
    (GraphInv_updateNode _ _ _ ?_ ?_ (GraphInv_graphInit q))
  · intro n
    rfl
  · intro n
    rfl

/-- C4: in every graph a decomposition run produces — for any expansion and
grounding responses and any number of loop iterations — no two distinct
nodes share the same normalized (`lower().strip()`) name: a recurring
concept name is linked as an extra edge to the one existing node, never
duplicated. -/
theorem planner_dedup_invariant (s : PlanScript) (q : String) (fuel : Nat) :
    ∀ n ∈ (plannerRun s q fuel).nodes, ∀ m ∈ (plannerRun s q fuel).nodes,
      nodeKey n = nodeKey m → n = m := by
  intro n hn m hm hk
  have h := GraphInv_plannerRun s q fuel
  have h1 := h.indexComplete n hn
  have h2 := h.indexComplete m hm
  rw [hk, h2] at h1
  have hid : m.id = n.id := by
    injection h1
  exact (List.inj_on_of_nodup_map h.idsNodup hm hn hid).symm

/-- C4 witness: the dedup invariant applied at the root of the two-sibling
collide scenario's graph, discharging the membership and key hypotheses by
evaluation. -/
theorem planner_dedup_invariant_witness :
    (⟨0, "r", NodeStatus.TO_SYNTHESIZE, [1, 2], none,
        GroundedDef.pyList []⟩ : ConceptNode)
      = ⟨0, "r", NodeStatus.TO_SYNTHESIZE, [1, 2], none,
          GroundedDef.pyList []⟩ :=
  planner_dedup_invariant collideScript "r" 10
    ⟨0, "r", NodeStatus.TO_SYNTHESIZE, [1, 2], none, GroundedDef.pyList []⟩
    (by decide)
    ⟨0, "r", NodeStatus.TO_SYNTHESIZE, [1, 2], none, GroundedDef.pyList []⟩
    (by decide) (by decide)

/-! ## Claim C3 — root exclusion on knowledge-base save -/

theorem saveStep_preserves_none (g : ConceptualGraph) (rk k : String)
    (kb : List (String × KBEntry)) (p : String × String)
    (hk : assocLookup kb k = none)
    (hcase : p.1 = k → p.1 = rk ∨ find_node_by_name g p.1 = none) :
    assocLookup (saveStep g rk kb p) k = none := by
  unfold saveStep
  by_cases hb : (p.1 == rk) = true
  · rw [if_pos hb]
    exact hk
  · rw [if_neg hb]
    cases hf : find_node_by_name g p.1 with
    | none => exact hk
    | some nid =>
      have hne : p.1 ≠ k := by
        intro he
        rcases hcase he with h | h
        · exact hb (by simp [h])
        · rw [hf] at h
          cases h
      rw [assocLookup_assocSet_ne _ _ (fun he => hne he.symm)]
      exact hk

theorem saveFold_preserves_none (g : ConceptualGraph) (rk k : String)
    (hall : ∀ p : String × String, p.1 = k →
      p.1 = rk ∨ find_node_by_name g p.1 = none) :
    ∀ (cache : List (String × String)) (kb : List (String × KBEntry)),
      assocLookup kb k = none →
      assocLookup (cache.foldl (saveStep g rk) kb) k = none := by
  intro cache
  induction cache with
  | nil =>
    intro kb h
    exact h
  | cons p rest ih =>
    intro kb h
    rw [List.foldl_cons]
    exact ih _ (saveStep_preserves_none g rk k kb p h (hall p))

/-- C3: after `save_verified_nodes`, the persisted knowledge base holds no
entry keyed by the root's normalized name — neither under the knowledge
base's own `lower().strip()` root key (filtered explicitly) nor under the
synthesizer's whitespace-collapsed cache key for the root (either the two
keys coincide and the filter catches it, or the collapsed key resolves to
no graph node and the save skips it), provided the pre-existing store held
no such entry. -/
theorem save_verified_nodes_root_exclusion
    (cache : List (String × String)) (g : ConceptualGraph)
    (existing : List (String × KBEntry)) (root : ConceptNode)
    (hr : getNode g g.rootId = some root)
    (h1 : assocLookup existing (lowerStrip root.name) = none)
    (h2 : assocLookup existing (normalize_node_name root.name) = none)
    (h3 : find_node_by_name g (normalize_node_name root.name) = none ∨
          normalize_node_name root.name = lowerStrip root.name) :
    assocLookup (save_verified_nodes cache g existing)
      (lowerStrip root.name) = none ∧
    assocLookup (save_verified_nodes cache g existing)
      (normalize_node_name root.name) = none := by
  have hrk : rootKeyOf g = lowerStrip root.name := by
    unfold rootKeyOf
    rw [hr]
  unfold save_verified_nodes
  rw [hrk]
  constructor
  · exact saveFold_preserves_none g _ _ (fun p hp => Or.inl hp) cache existing h1
  · refine saveFold_preserves_none g _ _ ?_ cache existing h2
    intro p hp
    rcases h3 with h | h
    · right
      rw [hp]
      exact h
    · left
      rw [hp, h]

/-- C3 witness: a decomposition whose root statement `"a\nB"` contains an
internal newline, a run cache containing both the collapsed root key
`"a b"` (as the synthesizer would produce for the root) and a child key,
and an empty pre-existing store. -/
theorem save_verified_nodes_root_exclusion_witness :
    (getNode wsRootGraph wsRootGraph.rootId =
      some ⟨0, "a\nB", .TO_SYNTHESIZE, [1], none, .pyList []⟩) ∧
    (assocLookup
      (save_verified_nodes [("a b", "leak?"), ("x", "thm")] wsRootGraph [])
      (lowerStrip "a\nB") = none ∧
    assocLookup
      (save_verified_nodes [("a b", "leak?"), ("x", "thm")] wsRootGraph [])
      (normalize_node_name "a\nB") = none) :=
  ⟨by decide,
   save_verified_nodes_root_exclusion [("a b", "leak?"), ("x", "thm")]
     wsRootGraph [] ⟨0, "a\nB", .TO_SYNTHESIZE, [1], none, .pyList []⟩
     (by decide) rfl rfl (Or.inl (by decide))⟩

/-! ## Claim C8 — alignment gate and independent booleans -/

/-- C8: with a non-failed compilation and at least one back-translated
segment, the knowledge-cache save is triggered iff the parsed consistency
judgment is level 1 or level 2 (a malformed judgment or a missing level
field counts as level 3 and saves nothing), `is_consistent` reports exactly
that, and the per-problem record keeps `compilation_passed = true` while
`semantic_passed` equals the alignment verdict — two independent flags —
with the compiled artifact still returned. -/
theorem alignment_save_iff_accepted (judgment : SemJudgment)
    (g : ConceptualGraph) (cache : List (String × String))
    (existing : List (String × KBEntry)) (final_code : String)
    (hseg : alignSegments g cache ≠ [])
    (hok : containsSubstr final_code "-- FATAL:" = false) :
    ((alignment_run judgment g cache existing).savedKB.isSome ↔
      ∃ lvl?, judgment = SemJudgment.parsed lvl? ∧
        (lvl?.getD "level_3" = "level_1" ∨ lvl?.getD "level_3" = "level_2")) ∧
    ((alignment_run judgment g cache existing).savedKB = none ∨
      (alignment_run judgment g cache existing).savedKB =
        some (save_verified_nodes cache g existing)) ∧
    ((alignment_run judgment g cache existing).is_consistent =
      (alignment_run judgment g cache existing).savedKB.isSome) ∧
    (process_record final_code
      (alignment_run judgment g cache existing)).compilation_passed = true ∧
    ((process_record final_code
      (alignment_run judgment g cache existing)).semantic_passed =
      (alignment_run judgment g cache existing).is_consistent) ∧
    (process_record final_code
      (alignment_run judgment g cache existing)).generated_code = final_code := by
  have hseg' : (alignSegments g cache).isEmpty = false := by
    cases he : alignSegments g cache with
    | nil => exact absurd he hseg
    | cons a l => rfl
  have hrec : ∀ out : AlignOutcome,
      process_record final_code out =
        { status := if out.is_consistent then "success" else "inconsistent",
          compilation_passed := true, semantic_passed := out.is_consistent,
          error := none,
          consistency_level := out.report.level?.getD "level_3",
          generated_code := final_code } := by
    intro out
    unfold process_record
    rw [hok]
    simp
  rw [hrec]
  cases judgment with
  | malformed =>
    simp only [alignment_run, hseg', Bool.false_eq_true, if_false]
    simp
  | parsed lvl? =>
    simp only [alignment_run, hseg', Bool.false_eq_true, if_false]
    by_cases hl : (lvl?.getD "level_3" == "level_1" ||
        lvl?.getD "level_3" == "level_2") = true
    · rw [if_pos hl]
      simp only [Bool.or_eq_true, beq_iff_eq] at hl
      simp [hl]
    · rw [if_neg hl]
      simp only [Bool.or_eq_true, beq_iff_eq] at hl
      push_neg at hl
      constructor
      · constructor
        · intro h
          exact absurd h (by simp)
        · rintro ⟨l2, hle, hor⟩
          cases hle
          rcases hor with h | h
          · exact absurd h hl.1
          · exact absurd h hl.2
      · simp

/-- C8 witness: a level-1 judgment on the simple two-node decomposition
with a one-entry run cache triggers the save and both record booleans. -/
theorem alignment_save_iff_accepted_witness :
    (alignSegments simpleGraph [("x", "thm")] ≠ [] ∧
      containsSubstr "import Mathlib\n\ntheorem t : True := trivial"
        "-- FATAL:" = false) ∧
    (((alignment_run (.parsed (some "level_1")) simpleGraph [("x", "thm")] []).savedKB.isSome ↔
      ∃ lvl?, SemJudgment.parsed (some "level_1") = SemJudgment.parsed lvl? ∧
        (lvl?.getD "level_3" = "level_1" ∨ lvl?.getD "level_3" = "level_2")) ∧
    ((alignment_run (.parsed (some "level_1")) simpleGraph [("x", "thm")] []).savedKB = none ∨
      (alignment_run (.parsed (some "level_1")) simpleGraph [("x", "thm")] []).savedKB =
        some (save_verified_nodes [("x", "thm")] simpleGraph [])) ∧
    ((alignment_run (.parsed (some "level_1")) simpleGraph [("x", "thm")] []).is_consistent =
      (alignment_run (.parsed (some "level_1")) simpleGraph [("x", "thm")] []).savedKB.isSome) ∧
    (process_record "import Mathlib\n\ntheorem t : True := trivial"
      (alignment_run (.parsed (some "level_1")) simpleGraph [("x", "thm")] [])).compilation_passed = true ∧
    ((process_record "import Mathlib\n\ntheorem t : True := trivial"
      (alignment_run (.parsed (some "level_1")) simpleGraph [("x", "thm")] [])).semantic_passed =
      (alignment_run (.parsed (some "level_1")) simpleGraph [("x", "thm")] []).is_consistent) ∧
    (process_record "import Mathlib\n\ntheorem t : True := trivial"
      (alignment_run (.parsed (some "level_1")) simpleGraph [("x", "thm")] [])).generated_code =
        "import Mathlib\n\ntheorem t : True := trivial") :=
  ⟨⟨by decide, by decide⟩,
   alignment_save_iff_accepted (.parsed (some "level_1")) simpleGraph
     [("x", "thm")] [] "import Mathlib\n\ntheorem t : True := trivial"
     (by decide) (by decide)⟩

/-! ## Claim C5 — the run cache is written at most once per key -/

/-- C5, counterexample.  The claim says the per-run `SynthesizedCache` is
write-once per key "including when two distinct node names collapse to the
same whitespace-normalized key".  In `collideGraph` the planner created two
distinct `TO_SYNTHESIZE` nodes named `"x y"` and `"x\ny"` (distinct under
the graph's `lower().strip()` normalization); the synthesizer's
`_normalize_node_name` collapses both to the key `"x y"`, the run's write
trace hits that key twice, and the plain dict assignment
`synthesized_cache[key] = code` silently overwrites the first admitted
artifact with the second (`c1`, not `c0`). -/
theorem synthRun_overwrite_counterexample :
    (∃ n ∈ collideGraph.nodes, ∃ m ∈ collideGraph.nodes, n ≠ m ∧
      n.status = NodeStatus.TO_SYNTHESIZE ∧
      m.status = NodeStatus.TO_SYNTHESIZE ∧
      normalize_node_name (pyStrip n.name) =
        normalize_node_name (pyStrip m.name)) ∧
    (synthRun okPools collideGraph).2.writes = ["x y", "x y", "r"] ∧
    ¬ (synthRun okPools collideGraph).2.writes.Nodup ∧
    assocLookup (synthRun okPools collideGraph).2.cache "x y" =
      some "theorem c1 : True := trivial" := by
  refine ⟨by decide, by decide, by decide, by decide⟩

/-- C5, amended.  If no node is grounded from the VerifiedKB splice channel
and distinct `TO_SYNTHESIZE` nodes have distinct collapsed
(`_normalize_node_name ∘ strip`) keys, then the run's cache write trace is
duplicate-free: each key is assigned at most once in the run, so no admitted
artifact is ever overwritten.  (Admitting one worker result per node is
immediate in this embedding: the build-order loop launches at most one pool
per node and takes the pool's single selected result.) -/
theorem synthRun_write_once (s : RunScript) (g : ConceptualGraph)
    (hnv : ∀ n ∈ g.nodes, n.grounded_definition ≠ GroundedDef.pyStr "VerifiedKB")
    (hkeys : ∀ n ∈ g.nodes, ∀ m ∈ g.nodes, n.status = NodeStatus.TO_SYNTHESIZE →
      m.status = NodeStatus.TO_SYNTHESIZE →
      normalize_node_name (pyStrip n.name) = normalize_node_name (pyStrip m.name) →
      n = m) :
    (synthRun s g).2.writes.Nodup := by
  have h := synthRun_writes_fold s g hnv hkeys (get_build_order g)
    (build_order_nodup g) []
    { cache := [], grounded := [], pieces := [joinSep "\n" BASE_IMPORTS],
      launches := 0, skipped := [], writes := [], halted := false }
    (by intro x _ hx; cases hx) List.nodup_nil
    (by intro k hk; cases hk)
  exact h.1

/-- C5, witness for the amended theorem at `simpleGraph` with `okPools`. -/
theorem synthRun_write_once_witness :
    (synthRun okPools simpleGraph).2.writes.Nodup :=
  synthRun_write_once okPools simpleGraph (by decide) (by decide)

/-! ## Claim C10 — skipped nodes and the success report -/

set_option maxRecDepth 40000 in
/-- C10.  First conjunct: whenever a `TO_SYNTHESIZE` node has a transitive
synthesis-requiring dependency absent from the run cache
(`collect_missing ≠ []`), the run-loop step skips it — no pool is launched,
no piece (in particular no failure marker) is appended, the run is not
halted, and only the ghost skip trace grows — so the loop continues with
later build-order nodes.  Second conjunct: in the concrete cyclic
decomposition `cyclicGraph` both nodes are skipped this way even under
always-failing pools; the run ends unhalted with zero launches, an empty
cache, no `-- FATAL:` marker in the final document, and
`process_single_problem` reports `compilation_passed = true` regardless of
the alignment outcome, although no code was emitted for the skipped
nodes. -/
theorem skipped_node_still_reports_success :
    (∀ (s : RunScript) (g : ConceptualGraph) (st : RunState) (nid : Nat)
        (node : ConceptNode), st.halted = false → getNode g nid = some node →
        node.status = NodeStatus.TO_SYNTHESIZE →
        collect_missing g st.cache st.grounded s.verified_kb nid ≠ [] →
        runStep s g st nid = { st with skipped := st.skipped ++ [nid] }) ∧
    ((synthRun failPools cyclicGraph).2.skipped = [1, 0] ∧
      (synthRun failPools cyclicGraph).2.launches = 0 ∧
      (synthRun failPools cyclicGraph).2.halted = false ∧
      (synthRun failPools cyclicGraph).2.cache = [] ∧
      containsSubstr (synthRun failPools cyclicGraph).1 "-- FATAL:" = false ∧
      ∀ align : AlignOutcome,
        (process_record (synthRun failPools cyclicGraph).1
          align).compilation_passed = true) := by
  constructor
  · exact fun s g st nid node hhalt hget hstat hmiss =>
      runStep_skip s g st nid node hhalt hget hstat hmiss
  · refine ⟨by decide, by decide, by decide, by decide, by decide, ?_⟩
    intro align
    unfold process_record
    rw [show containsSubstr (synthRun failPools cyclicGraph).1 "-- FATAL:"
      = false by decide]
    simp

/-- C10, witness: the skip step applied at the concrete node `"x"` of
`cyclicGraph` under always-failing pools. -/
theorem skipped_node_still_reports_success_witness :
    runStep failPools cyclicGraph
      { cache := [], grounded := [], pieces := [joinSep "\n" BASE_IMPORTS],
        launches := 0, skipped := [], writes := [], halted := false } 1 =
      { cache := [], grounded := [], pieces := [joinSep "\n" BASE_IMPORTS],
        launches := 0, skipped := [] ++ [1], writes := [], halted := false } :=
  skipped_node_still_reports_success.1 failPools cyclicGraph
    { cache := [], grounded := [], pieces := [joinSep "\n" BASE_IMPORTS],
      launches := 0, skipped := [], writes := [], halted := false } 1
    { id := 1, name := "x", status := NodeStatus.TO_SYNTHESIZE,
      dependencies := [0], parent := some 0,
      grounded_definition := GroundedDef.pyList [] }
    rfl (by decide) rfl (by decide)

/-! ## Claim C7 — synthesis failure halts the run and fails the record -/

/-- C7.  First conjunct: when a `TO_SYNTHESIZE` node's worker pool produces
no accepted compile (the `as_completed` loop ends with `success_code` still
`None`), the run-loop step appends the explicit failure marker
`-- FATAL: <name> synthesis failed.` for that node and halts the run (the
Python `return` — no later build-order node is processed, by
`runStep_halted_id`).  Second conjunct: a halted run's final document always
contains a `-- FATAL:` marker, and `process_single_problem` then reports
`compilation_passed = false` whatever the alignment outcome.  Third
conjunct (contrapositive of "no success ⇒ halt"): if the run ends unhalted,
every launched pool had produced a success. -/
theorem synthesis_failure_halts_run (s : RunScript) (g : ConceptualGraph) :
    (∀ (st : RunState) (nid : Nat) (node : ConceptNode),
      st.halted = false → getNode g nid = some node →
      node.status = NodeStatus.TO_SYNTHESIZE →
      collect_missing g st.cache st.grounded s.verified_kb nid = [] →
      s.poolAt st.launches = none →
      runStep s g st nid = { st with
        pieces := st.pieces ++
          ["-- FATAL: " ++ pyStrip node.name ++ " synthesis failed."],
        launches := st.launches + 1, halted := true }) ∧
    ((synthRun s g).2.halted = true →
      containsSubstr (synthRun s g).1 "-- FATAL:" = true ∧
      ∀ align : AlignOutcome,
        (process_record (synthRun s g).1 align).compilation_passed = false) ∧
    ((synthRun s g).2.halted = false →
      ∀ i, i < (synthRun s g).2.launches → s.poolAt i ≠ none) := by
  refine ⟨fun st nid node h1 h2 h3 h4 h5 =>
    runStep_fatal s g st nid node h1 h2 h3 h4 h5, ?_, ?_⟩
  · intro hhalt
    have hhalt2 : ((get_build_order g).foldl (runStep s g)
        { cache := [], grounded := [], pieces := [joinSep "\n" BASE_IMPORTS],
          launches := 0, skipped := [], writes := [], halted := false }).halted
        = true := hhalt
    have hmark := foldl_runStep_halted_marker s g (get_build_order g)
      { cache := [], grounded := [], pieces := [joinSep "\n" BASE_IMPORTS],
        launches := 0, skipped := [], writes := [], halted := false }
      (fun h => Bool.noConfusion h) hhalt2
    obtain ⟨nm, hmem⟩ := hmark
    have hcs : containsSubstr (synthRun s g).1 "-- FATAL:" = true := by
      show containsSubstr (build_final_code_string
        ((get_build_order g).foldl (runStep s g)
          { cache := [], grounded := [], pieces := [joinSep "\n" BASE_IMPORTS],
            launches := 0, skipped := [], writes := [], halted := false }).pieces)
        "-- FATAL:" = true
      exact fatal_marker_in_final _ nm hmem
    refine ⟨hcs, fun align => ?_⟩
    unfold process_record
    rw [hcs]
    simp
  · intro hh
    have hh2 : ((get_build_order g).foldl (runStep s g)
        { cache := [], grounded := [], pieces := [joinSep "\n" BASE_IMPORTS],
          launches := 0, skipped := [], writes := [], halted := false }).halted
        = false := hh
    exact foldl_runStep_launches s g (get_build_order g)
      { cache := [], grounded := [], pieces := [joinSep "\n" BASE_IMPORTS],
        launches := 0, skipped := [], writes := [], halted := false }
      (fun _ i hi => absurd hi (Nat.not_lt_zero i)) hh2

set_option maxRecDepth 40000 in
/-- C7, witness: with always-failing pools on the simple two-node
decomposition the run halts, the document carries the marker and the record
reports a failed compilation. -/
theorem synthesis_failure_halts_run_witness :
    containsSubstr (synthRun failPools simpleGraph).1 "-- FATAL:" = true ∧
    (process_record (synthRun failPools simpleGraph).1
      { is_consistent := false, report := { level? := none },
        savedKB := none }).compilation_passed = false := by
  have h := (synthesis_failure_halts_run failPools simpleGraph).2.1 (by decide)
  exact ⟨h.1, h.2 _⟩

/-! ## Claim C1 — build order and dependency-before-dependent -/

set_option maxRecDepth 40000 in
/-- C1, counterexample.  The planner's dedup can link a later concept back
to an ancestor: in `cyclicGraph` (a graph produced by the decomposition
stage from `cyclicScript`) the root `0` and its child `1` depend on each
other.  `get_build_order` still terminates (identity-keyed revisit guard)
and visits each node once, but the order `[1, 0]` lists node `1` before its
dependency `0`: the dependency-before-dependent guarantee fails on
non-acyclic graphs, which the decomposition stage can produce. -/
theorem build_order_cycle_counterexample :
    (cyclicGraph = plannerRun cyclicScript "r" 10) ∧
    get_build_order cyclicGraph = [1, 0] ∧
    (0 ∈ getDeps cyclicGraph 1) ∧ (1 ∈ getDeps cyclicGraph 0) ∧
    cyclicGraph.rootId = 0 ∧
    ¬ (idxOf 0 (get_build_order cyclicGraph) <
        idxOf 1 (get_build_order cyclicGraph)) := by
  exact ⟨rfl, by decide, by decide, by decide, by decide, by decide⟩

/-- C1, amended.  On graphs whose dependency relation admits a decreasing
rank (i.e. is acyclic — which dedup cross-links to non-ancestors preserve)
and whose edges stay inside the arena, `get_build_order` emits a
duplicate-free order containing the root in which every dependency of an
emitted node is emitted strictly before it. -/
theorem build_order_deps_before (g : ConceptualGraph) (rank : Nat → Nat)
    (hclosed : DepsClosed g) (hrank : DepRanked g rank)
    (hroot : g.rootId ∈ idsOf g) :
    (get_build_order g).Nodup ∧
    g.rootId ∈ get_build_order g ∧
    (∀ a ∈ get_build_order g, ∀ d ∈ getDeps g a,
      d ∈ get_build_order g ∧
      idxOf d (get_build_order g) < idxOf a (get_build_order g)) := by
  have h := potGo_rank g rank hclosed hrank (g.nodes.length + 1) g.rootId [] []
    hroot (fun v hv => absurd hv (List.not_mem_nil v)) List.nodup_nil
    (by simp [idsOf])
    (fun v hv => absurd hv (List.not_mem_nil v))
    (fun a ha => absurd ha (List.not_mem_nil a))
    List.nodup_nil
    (fun a ha => absurd ha (List.not_mem_nil a))
  exact ⟨h.ordNodup, h.selfMem, h.ordInv⟩

set_option maxRecDepth 40000 in
/-- C1, witness for the amended theorem: the acyclic two-node decomposition
`simpleGraph`, ranked by `root ↦ 1, child ↦ 0`. -/
theorem build_order_deps_before_witness :
    (get_build_order simpleGraph).Nodup ∧
    simpleGraph.rootId ∈ get_build_order simpleGraph ∧
    (∀ a ∈ get_build_order simpleGraph, ∀ d ∈ getDeps simpleGraph a,
      d ∈ get_build_order simpleGraph ∧
      idxOf d (get_build_order simpleGraph) <
        idxOf a (get_build_order simpleGraph)) :=
  build_order_deps_before simpleGraph (fun n => if n = 0 then 1 else 0)
    (by unfold DepsClosed; decide) (by unfold DepRanked; decide) (by decide)

end Formalizer
